import Mathlib

/-!
# Verification of the `webpack` request router (`router.go`)

The Go package consists of three HTTP handlers:

* `Router` — per-method buckets of (pattern, handler) pairs, dispatched by regular expression;
* `EntrypointRouter` — serves one file per exactly registered path;
* `ResourceRouter` — serves files out of registered directories.

The embedding below follows `router.go` function by function.  Library code that the
package calls but does not define (`regexp.Compile`, `(*Regexp).MatchString`,
`strings.ToLower`) is taken as a parameter (`Lib`).  Go maps are finite maps with
unique keys and no iteration order; a `range` loop over a map is modelled by running
the loop body over an explicitly given enumeration of the map's entries, and theorems
quantify over every enumeration that is a permutation of those entries.
-/

namespace Webpack

/-! ## Go maps -/

/-- A Go `map[string]V`: a finite list of key/value entries whose keys are pairwise
distinct.  The position of an entry in `entries` carries no meaning for the program:
a `range` loop may visit the entries in any order. -/
structure GoMap (V : Type) where
  entries : List (String × V)
  nodup : (entries.map Prod.fst).Nodup

namespace GoMap

variable {V : Type}

/-- The result of `make(map[string]V)`. -/
def empty : GoMap V := ⟨[], List.nodup_nil⟩

/-- First entry stored under key `k` in a list of entries. -/
def lookupEntries (k : String) : List (String × V) → Option V
  | [] => none
  | (k', v) :: rest => if k' = k then some v else lookupEntries k rest

/-- The two-valued index expression `v, ok := m[k]` (`none` when `ok` is false). -/
def get? (m : GoMap V) (k : String) : Option V := lookupEntries k m.entries

/-- Entries after the assignment `m[k] = v`: the entry keyed `k` is overwritten where it
stands, or a new entry is added when there is none. -/
def setEntries (k : String) (v : V) : List (String × V) → List (String × V)
  | [] => [(k, v)]
  | (k', v') :: rest => if k' = k then (k, v) :: rest else (k', v') :: setEntries k v rest

/-- The assignment `m[k] = v`. -/
def set (m : GoMap V) (k : String) (v : V) : GoMap V :=
  ⟨setEntries k v m.entries, by
    have key : ∀ l : List (String × V), (setEntries k v l).map Prod.fst
        = if k ∈ l.map Prod.fst then l.map Prod.fst else l.map Prod.fst ++ [k] := by
      intro l
      induction l with
      | nil => simp [setEntries]
      | cons e rest ih =>
        obtain ⟨k', v'⟩ := e
        by_cases hk : k' = k
        · simp [setEntries, hk]
        · have hk2 : ¬ k = k' := fun h => hk h.symm
          by_cases hm : k ∈ rest.map Prod.fst
          · simp only [setEntries, hk, if_false, List.map_cons, ih, hm, if_true,
              List.mem_cons, or_true]
          · simp only [setEntries, hk, if_false, List.map_cons, ih, hm, List.mem_cons, hk2,
              or_self, List.cons_append]
    rw [key]
    by_cases hm : k ∈ m.entries.map Prod.fst
    · simpa [hm] using m.nodup
    · simp only [hm, if_false]
      rw [List.nodup_append]
      refine ⟨m.nodup, List.nodup_singleton k, ?_⟩
      intro a ha hb
      simp only [List.mem_singleton] at hb
      exact hm (hb ▸ ha)⟩

/-- The key set of the map, in storage order. -/
def keys (m : GoMap V) : List String := m.entries.map Prod.fst

/-- The builtin `len(m)`. -/
def len (m : GoMap V) : Nat := m.entries.length

end GoMap

/-! ## Library parameters -/

/-- The library functions `router.go` calls: `regexp.Compile` (returning the compiled
expression or the library's error), `(*Regexp).MatchString` and `strings.ToLower`. -/
structure Lib (Re Err : Type) where
  compile : String → Except Err Re
  matchString : Re → String → Bool
  toLower : String → String

/-! ## The dispatch router -/

/-- The values of Go's `error` that `Router.Register` can return besides `nil`. -/
inductive RegisterError (Err : Type) where
  | unsupportedMethod : RegisterError Err
  | compileError (err : Err) : RegisterError Err
  deriving DecidableEq, Repr

/-- The exported error value
`errors.New("handler registration failed: unsupported method")`. -/
def ErrCouldNotRegisterUnsupportedMethod {Err : Type} : RegisterError Err :=
  RegisterError.unsupportedMethod

/-- The struct `handlers`: handler and compiled pattern, each keyed by the pattern
string.  The two maps are independent fields, as in the source. -/
structure handlers (H Re : Type) where
  registered : GoMap H
  patterns : GoMap Re

/-- Go's `newHandlers`. -/
def newHandlers {H Re : Type} : handlers H Re :=
  { registered := GoMap.empty, patterns := GoMap.empty }

/-- The struct `Router`.  `Routes` maps a method name to its bucket; each bucket is a
separately allocated `*handlers`, so a bucket is held by value here. -/
structure Router (H Re : Type) where
  Routes : GoMap (handlers H Re)

/-- Go's `NewRouter`: four empty buckets keyed `get`, `post`, `put`, `delete`. -/
def NewRouter {H Re : Type} : Router H Re :=
  { Routes :=
      ⟨[("get", newHandlers), ("post", newHandlers), ("put", newHandlers),
        ("delete", newHandlers)], by simp⟩ }

/-- The constant `http.MethodGet`. -/
def MethodGet : String := "GET"

/-- The constant `http.MethodPost`. -/
def MethodPost : String := "POST"

/-- The constant `http.MethodPut`. -/
def MethodPut : String := "PUT"

/-- The constant `http.MethodDelete`. -/
def MethodDelete : String := "DELETE"

variable {H Re Err : Type}

/-- Go's `Router.Register`: returns the error (`none` for `nil`) and the router after
the call. -/
def Router.Register (L : Lib Re Err) (router : Router H Re) (method route : String)
    (h : H) : Option (RegisterError Err) × Router H Re :=
  let m := L.toLower method
  match router.Routes.get? m with
  | some routes =>
    match L.compile route with
    | .error err => (some (.compileError err), router)
    | .ok re =>
      (none,
        { Routes := router.Routes.set m
            { registered := routes.registered.set route h
              patterns := routes.patterns.set route re } })
  | none => (some ErrCouldNotRegisterUnsupportedMethod, router)

/-- Go's `Router.GET`. -/
def Router.GET (L : Lib Re Err) (router : Router H Re) (route : String) (h : H) :
    Option (RegisterError Err) × Router H Re :=
  router.Register L MethodGet route h

/-- Go's `Router.POST`. -/
def Router.POST (L : Lib Re Err) (router : Router H Re) (route : String) (h : H) :
    Option (RegisterError Err) × Router H Re :=
  router.Register L MethodGet route h

/-- Go's `Router.PUT`. -/
def Router.PUT (L : Lib Re Err) (router : Router H Re) (route : String) (h : H) :
    Option (RegisterError Err) × Router H Re :=
  router.Register L MethodGet route h

/-- Go's `Router.DELETE`. -/
def Router.DELETE (L : Lib Re Err) (router : Router H Re) (route : String) (h : H) :
    Option (RegisterError Err) × Router H Re :=
  router.Register L MethodGet route h

/-- What `Router.ServeHTTP` does with a request: call a handler, answer with
`http.NotFound`, or dereference a nil `*regexp.Regexp` (a run-time panic). -/
inductive Decision (H : Type) where
  | invoke (h : H) : Decision H
  | notFound : Decision H
  | nilPattern : Decision H
  deriving DecidableEq, Repr

/-- The body of the `range routes.registered` loop of `Router.ServeHTTP`, run over the
entries in the order the loop visits them. -/
def serveLoop (L : Lib Re Err) (patterns : GoMap Re) (u : String) :
    List (String × H) → Decision H
  | [] => .notFound
  | (pattern, handler) :: rest =>
    match patterns.get? pattern with
    | none => .nilPattern
    | some re => if L.matchString re u then .invoke handler else serveLoop L patterns u rest

/-- Go's `Router.ServeHTTP` for a request with method `method` and URL path `u`.
`order` is the sequence in which the `range` loop visits the entries of the bucket's
`registered` map. -/
def Router.ServeHTTP (L : Lib Re Err) (router : Router H Re) (order : List (String × H))
    (method u : String) : Decision H :=
  let m := L.toLower method
  match router.Routes.get? m with
  | some routes => serveLoop L routes.patterns u order
  | none => .notFound

/-- The sequence `order` is a possible iteration order of the `range` loop in
`Router.ServeHTTP` for a request with method `method`: every entry of the bucket's
`registered` map exactly once. -/
def Router.RangeOrder (L : Lib Re Err) (router : Router H Re) (method : String)
    (order : List (String × H)) : Prop :=
  ∀ routes, router.Routes.get? (L.toLower method) = some routes →
    order.Perm routes.registered.entries

/-- Router states the program can be in: `NewRouter()` followed by any number of
`Register` calls (the wrappers `GET`, `POST`, `PUT`, `DELETE` are `Register` calls). -/
inductive Reachable (L : Lib Re Err) : Router H Re → Prop where
  | init : Reachable L NewRouter
  | register (router : Router H Re) (method route : String) (h : H) :
      Reachable L router → Reachable L (router.Register L method route h).2

/-- The method names of the four buckets `NewRouter` creates. -/
def supportedMethods : List String := ["get", "post", "put", "delete"]

/-- Invariant of the reachable router states: the buckets are the four of `NewRouter`,
and in every bucket the two maps have the same keys and `patterns[p]` is the result of
compiling `p`. -/
def Router.Inv (L : Lib Re Err) (router : Router H Re) : Prop :=
  router.Routes.keys = supportedMethods ∧
  ∀ m routes, router.Routes.get? m = some routes →
    routes.registered.keys = routes.patterns.keys ∧
    ∀ p re, routes.patterns.get? p = some re → L.compile p = .ok re

/-! ## The dispatch decision as the specification words it -/

/-- The pattern string `p` compiles and its compiled expression matches the path `u`. -/
def patternMatches (L : Lib Re Err) (p u : String) : Bool :=
  match L.compile p with
  | .ok re => L.matchString re u
  | .error _ => false

/-- Find-first dispatch over an enumeration of (pattern, handler) entries: the handler of
the first entry whose pattern matches the path, `notFound` when no entry does. -/
def findFirst (L : Lib Re Err) (u : String) (order : List (String × H)) : Decision H :=
  match order.find? (fun e => patternMatches L e.1 u) with
  | some e => .invoke e.2
  | none => .notFound

/-! ## The entrypoint handler -/

/-- The struct `EntrypointRouter`. -/
structure EntrypointRouter where
  entrypoints : GoMap String

/-- Go's `NewEntrypointRouter`. -/
def NewEntrypointRouter : EntrypointRouter := { entrypoints := GoMap.empty }

/-- Go's `EntrypointRouter.RegisterFile`. -/
def EntrypointRouter.RegisterFile (router : EntrypointRouter) (route filepath : String) :
    EntrypointRouter :=
  { entrypoints := router.entrypoints.set route filepath }

/-- The constant `http.StatusMethodNotAllowed`. -/
def StatusMethodNotAllowed : Nat := 405

/-- What `EntrypointRouter.ServeHTTP` answers: `http.ServeFile(w, r, f)`,
`http.NotFound(w, r)` or `http.Error(w, msg, code)`. -/
inductive EntrypointResponse where
  | serveFile (f : String) : EntrypointResponse
  | notFound : EntrypointResponse
  | error (msg : String) (code : Nat) : EntrypointResponse
  deriving DecidableEq, Repr

/-- Go's `EntrypointRouter.ServeHTTP` for a request with method `method` and URL path
`path`; the message is `fmt.Sprintf("cannot %s %s", method, path)`. -/
def EntrypointRouter.ServeHTTP (router : EntrypointRouter) (method path : String) :
    EntrypointResponse :=
  if method = MethodGet then
    match router.entrypoints.get? path with
    | some f => .serveFile f
    | none => .notFound
  else
    .error ("cannot " ++ method ++ " " ++ path) StatusMethodNotAllowed

/-- The entrypoint router after the calls `RegisterFile(route, filepath)` of `calls`, made
in list order on `router`. -/
def EntrypointRouter.registerAll (router : EntrypointRouter) :
    List (String × String) → EntrypointRouter
  | [] => router
  | (route, filepath) :: rest => (router.RegisterFile route filepath).registerAll rest

/-- The file path most recently passed to `RegisterFile` for `route` among `calls`. -/
def lastRegistered (route : String) (calls : List (String × String)) : Option String :=
  (calls.reverse.find? (fun c => c.1 = route)).map Prod.snd

/-! ## A reference instance of the library parameters

A small regular-expression engine for the fragment of Go's RE2 syntax made of literal
characters, escaped punctuation, `.`, `^`, `$`, grouping, `|`, `?`, `*` and `+`, with
unanchored matching as in `MatchString`.  Everything outside the fragment is rejected by
`compileRx`.  It instantiates `Lib` where a statement is evaluated on concrete patterns. -/

/-- Abstract syntax of the fragment. -/
inductive Rx where
  | empty : Rx
  | chr (c : Char) : Rx
  | any : Rx
  | bol : Rx
  | eol : Rx
  | seq (a b : Rx) : Rx
  | alt (a b : Rx) : Rx
  | opt (a : Rx) : Rx
  | star (a : Rx) : Rx
  deriving DecidableEq, Repr

/-- Positions reachable by applying `f` at most `n` times, starting from `acc`. -/
def Rx.closure (f : Bool × List Char → List (Bool × List Char)) :
    Nat → List (Bool × List Char) → List (Bool × List Char)
  | 0, acc => acc
  | n + 1, acc => acc ++ Rx.closure f n (acc.flatMap f)

/-- All positions at which a match of the expression that starts at the given position can
end.  A position is the remaining input together with a flag telling whether it is the
beginning of the text. -/
def Rx.ends : Rx → Bool × List Char → List (Bool × List Char)
  | .empty, s => [s]
  | .chr c, (_, x :: xs) => if x = c then [(false, xs)] else []
  | .chr _, (_, []) => []
  | .any, (_, x :: xs) => if x = '\n' then [] else [(false, xs)]
  | .any, (_, []) => []
  | .bol, (b, xs) => if b then [(b, xs)] else []
  | .eol, (b, xs) => if xs.isEmpty then [(b, xs)] else []
  | .seq a b, s => (a.ends s).flatMap (fun t => b.ends t)
  | .alt a b, s => a.ends s ++ b.ends s
  | .opt a, s => a.ends s ++ [s]
  | .star a, s => Rx.closure (fun t => a.ends t) s.2.length [s]

/-- Some match starts at the given position or at a later one. -/
def Rx.matchFrom (re : Rx) : Bool → List Char → Bool
  | b, [] => !(re.ends (b, [])).isEmpty
  | b, x :: xs => !(re.ends (b, x :: xs)).isEmpty || Rx.matchFrom re false xs

/-- Unanchored match of the whole string, as `MatchString`. -/
def Rx.matchString (re : Rx) (s : String) : Bool := re.matchFrom true s.data

/-- Parser state for one open group: the finished alternatives and the items of the
alternative being read, both most recent first. -/
structure RxFrame where
  alts : List Rx
  cur : List Rx

/-- Concatenation of items given most recent first. -/
def seqOf : List Rx → Rx
  | [] => .empty
  | x :: xs => xs.foldl (fun acc y => .seq y acc) x

/-- The expression of a finished group. -/
def RxFrame.close (f : RxFrame) : Rx :=
  f.alts.foldl (fun acc y => .alt y acc) (seqOf f.cur)

/-- Parser of the fragment: one pass over the pattern with a stack of open groups. -/
def parseRx : List Char → RxFrame → List RxFrame → Except String Rx
  | [], f, [] => .ok f.close
  | [], _, _ :: _ => .error "missing closing )"
  | c :: cs, f, stack =>
    if c = '(' then parseRx cs ⟨[], []⟩ (f :: stack)
    else if c = ')' then
      match stack with
      | [] => .error "unexpected )"
      | g :: stack' => parseRx cs { g with cur := f.close :: g.cur } stack'
    else if c = '|' then parseRx cs ⟨seqOf f.cur :: f.alts, []⟩ stack
    else if c = '?' then
      match f.cur with
      | [] => .error "missing argument to repetition operator"
      | x :: xs => parseRx cs { f with cur := .opt x :: xs } stack
    else if c = '*' then
      match f.cur with
      | [] => .error "missing argument to repetition operator"
      | x :: xs => parseRx cs { f with cur := .star x :: xs } stack
    else if c = '+' then
      match f.cur with
      | [] => .error "missing argument to repetition operator"
      | x :: xs => parseRx cs { f with cur := .seq x (.star x) :: xs } stack
    else if c = '\\' then
      match cs with
      | [] => .error "trailing backslash at end of expression"
      | d :: cs' =>
        if d.isAlphanum then .error "escape sequence outside the fragment"
        else parseRx cs' { f with cur := .chr d :: f.cur } stack
    else if c = '[' ∨ c = '{' then .error "construct outside the fragment"
    else if c = '.' then parseRx cs { f with cur := .any :: f.cur } stack
    else if c = '^' then parseRx cs { f with cur := .bol :: f.cur } stack
    else if c = '$' then parseRx cs { f with cur := .eol :: f.cur } stack
    else parseRx cs { f with cur := .chr c :: f.cur } stack

/-- Compilation of a pattern string of the fragment. -/
def compileRx (s : String) : Except String Rx := parseRx s.data ⟨[], []⟩ []

/-- Lower-casing of the ASCII letters of a string. -/
def asciiLower (s : String) : String := String.mk (s.data.map Char.toLower)

/-- The reference instance of `Lib`. -/
def refLib : Lib Rx String :=
  { compile := compileRx, matchString := Rx.matchString, toLower := asciiLower }

/-! ## Concrete router states used to evaluate the code -/

/-- The router after `NewRouter()` and `Register("GET", "$", A)`. -/
def routerA : Router String Rx := (NewRouter.Register refLib "GET" "$" "A").2

/-- The router after `NewRouter()`, `Register("GET", "$", A)` and
`Register("GET", "\\.js$", B)`: two patterns that both match `/app.js`. -/
def routerAB : Router String Rx := (routerA.Register refLib "GET" "\\.js$" "B").2

/-- The pattern registered for static assets in `TestExampleUsage` (`router_test.go`). -/
def assetPattern : String := "(\\.js|\\.json|\\.css|\\.png|\\.gif|\\.jpe?g|\\.ico)$"

/-- The router of `TestExampleUsage`: `router.GET("/$", A)` then
`router.GET(assetPattern, B)` on a fresh router. -/
def testRouter (L : Lib Re Err) (A B : H) : Router H Re :=
  ((NewRouter.GET L "/$" A).2.GET L assetPattern B).2

/-! ## Sequences of registration calls -/

/-- One call of the registration API of `Router`: `Register` or one of its wrappers. -/
inductive Call (H : Type) where
  | register (method route : String) (h : H) : Call H
  | get (route : String) (h : H) : Call H
  | post (route : String) (h : H) : Call H
  | put (route : String) (h : H) : Call H
  | delete (route : String) (h : H) : Call H

/-- The error returned by a registration call and the router after it. -/
def Router.call (L : Lib Re Err) (router : Router H Re) :
    Call H → Option (RegisterError Err) × Router H Re
  | .register method route h => router.Register L method route h
  | .get route h => router.GET L route h
  | .post route h => router.POST L route h
  | .put route h => router.PUT L route h
  | .delete route h => router.DELETE L route h

/-- The router after a sequence of registration calls, successful or failing, made in list
order. -/
def Router.calls (L : Lib Re Err) (router : Router H Re) : List (Call H) → Router H Re
  | [] => router
  | c :: cs => Router.calls L (router.call L c).2 cs

/-! ## The resource handler -/

/-- The file-system functions `ResourceRouter.ServeHTTP` calls: the error result of
`os.Stat` (`none` for nil), `os.IsNotExist`, the text of an error
(`fmt.Sprintf("%s", err)`) and `filepath.Join`. -/
structure FS (E : Type) where
  stat : String → Option E
  isNotExist : E → Bool
  errorText : E → String
  join : String → String → String

/-- The handler value `http.FileServer(http.Dir(dir))`. -/
inductive ResourceHandler where
  | fileServer (dir : String) : ResourceHandler
  deriving DecidableEq, Repr

/-- The struct `ResourceRouter`. -/
structure ResourceRouter where
  resources : GoMap ResourceHandler

/-- Go's `NewResourceRouter`. -/
def NewResourceRouter : ResourceRouter := { resources := GoMap.empty }

/-- Go's `ResourceRouter.RegisterDirectory`. -/
def ResourceRouter.RegisterDirectory (router : ResourceRouter) (dir : String) :
    ResourceRouter :=
  { resources := router.resources.set dir (ResourceHandler.fileServer dir) }

/-- The resource router after the calls `RegisterDirectory(dir)` for the directories of the
list, made in list order. -/
def ResourceRouter.registerAll (router : ResourceRouter) : List String → ResourceRouter
  | [] => router
  | dir :: rest => (router.RegisterDirectory dir).registerAll rest

/-- The observable steps of `ResourceRouter.ServeHTTP`: a call `os.Stat(name)`, the answer
`http.Error(w, msg, code)`, the call `handler.ServeHTTP(w, r)` and the answer
`http.NotFound(w, r)`. -/
inductive ResourceEvent where
  | stat (name : String) : ResourceEvent
  | error (msg : String) (code : Nat) : ResourceEvent
  | delegate (handler : ResourceHandler) : ResourceEvent
  | notFound : ResourceEvent
  deriving DecidableEq, Repr

/-- The `range router.resources` loop of `ResourceRouter.ServeHTTP` followed by the final
`http.NotFound`, run over the entries in the order the loop visits them: the steps taken,
in order.  Every path through the loop body ends in `return`, so the entries after the
first are never visited. -/
def resourceLoop {E : Type} (F : FS E) (path : String) :
    List (String × ResourceHandler) → List ResourceEvent
  | [] => [.notFound]
  | (root, handler) :: _ =>
    match F.stat (F.join root path) with
    | some err =>
      if F.isNotExist err then
        [.stat (F.join root path), .error (F.errorText err) 404]
      else
        [.stat (F.join root path), .delegate handler]
    | none => [.stat (F.join root path), .delegate handler]

/-- The sequence `order` is a possible iteration order of the `range router.resources` loop:
every entry of the map exactly once. -/
def ResourceRouter.RangeOrder (router : ResourceRouter)
    (order : List (String × ResourceHandler)) : Prop :=
  order.Perm router.resources.entries

/-- Go's `ResourceRouter.ServeHTTP` for a request with URL path `path`, where `order` is the
sequence in which the `range` loop visits the entries of `router.resources`
(`router.RangeOrder order`). -/
def ResourceRouter.ServeHTTP {E : Type} (F : FS E) (_router : ResourceRouter)
    (order : List (String × ResourceHandler)) (path : String) : List ResourceEvent :=
  resourceLoop F path order

/-! ## A reference instance of the file-system parameters -/

/-- Errors of the reference file system. -/
inductive RefFsError where
  | notExist (name : String) : RefFsError
  | permission (name : String) : RefFsError
  deriving DecidableEq, Repr

/-- A file system in which the names of `existing` can be stat-ed, the names of `denied`
fail with a permission error and every other name fails with a missing-file error.  Paths
are joined by concatenation, which is `filepath.Join` for a root without trailing slash
and a clean path starting with a slash. -/
def refFS (existing denied : List String) : FS RefFsError :=
  { stat := fun name =>
      if name ∈ denied then some (.permission name)
      else if name ∈ existing then none
      else some (.notExist name)
    isNotExist := fun e =>
      match e with
      | .notExist _ => true
      | .permission _ => false
    errorText := fun e =>
      match e with
      | .notExist name => "stat " ++ name ++ ": no such file or directory"
      | .permission name => "stat " ++ name ++ ": permission denied"
    join := fun root path => root ++ path }

/-- The resource router after `RegisterDirectory("/a")` then `RegisterDirectory("/b")`. -/
def resourcesAB : ResourceRouter :=
  (NewResourceRouter.RegisterDirectory "/a").RegisterDirectory "/b"

/-! ## Go maps: lemmas -/

namespace GoMap

variable {V : Type}

theorem keys_setEntries (k : String) (v : V) (l : List (String × V)) :
    (setEntries k v l).map Prod.fst
      = if k ∈ l.map Prod.fst then l.map Prod.fst else l.map Prod.fst ++ [k] := by
  induction l with
  | nil => simp [setEntries]
  | cons e rest ih =>
    obtain ⟨k', v'⟩ := e
    by_cases hk : k' = k
    · simp [setEntries, hk]
    · have hk2 : ¬ k = k' := fun h => hk h.symm
      by_cases hm : k ∈ rest.map Prod.fst
      · simp only [setEntries, hk, if_false, List.map_cons, ih, hm, if_true, List.mem_cons,
          or_true]
      · simp only [setEntries, hk, if_false, List.map_cons, ih, hm, List.mem_cons, hk2,
          or_self, List.cons_append]

theorem lookupEntries_setEntries_self (k : String) (v : V) (l : List (String × V)) :
    lookupEntries k (setEntries k v l) = some v := by
  induction l with
  | nil => simp [setEntries, lookupEntries]
  | cons e rest ih =>
    obtain ⟨k', v'⟩ := e
    by_cases hk : k' = k
    · simp [setEntries, lookupEntries, hk]
    · simp [setEntries, lookupEntries, hk, ih]

theorem lookupEntries_setEntries_ne (k k2 : String) (v : V) (l : List (String × V))
    (hne : k2 ≠ k) : lookupEntries k2 (setEntries k v l) = lookupEntries k2 l := by
  have hne2 : ¬ k = k2 := fun h => hne h.symm
  induction l with
  | nil => simp [setEntries, lookupEntries, hne2]
  | cons e rest ih =>
    obtain ⟨k', v'⟩ := e
    by_cases hk : k' = k
    · subst hk
      simp [setEntries, lookupEntries, hne2]
    · by_cases hk3 : k' = k2
      · subst hk3
        simp [setEntries, lookupEntries, hk]
      · simp [setEntries, lookupEntries, hk, hk3, ih]

theorem lookupEntries_eq_none {k : String} {l : List (String × V)} :
    lookupEntries k l = none ↔ k ∉ l.map Prod.fst := by
  induction l with
  | nil => simp [lookupEntries]
  | cons e rest ih =>
    obtain ⟨k', v'⟩ := e
    by_cases hk : k' = k
    · simp [lookupEntries, hk]
    · have : ¬ k = k' := fun h => hk h.symm
      simp [lookupEntries, hk, ih, this]

theorem mem_of_lookupEntries {k : String} {v : V} {l : List (String × V)}
    (h : lookupEntries k l = some v) : (k, v) ∈ l := by
  induction l with
  | nil => simp [lookupEntries] at h
  | cons e rest ih =>
    obtain ⟨k', v'⟩ := e
    by_cases hk : k' = k
    · simp [lookupEntries, hk] at h
      simp [hk, h]
    · simp [lookupEntries, hk] at h
      exact List.mem_cons_of_mem _ (ih h)

theorem lookupEntries_of_mem {k : String} {v : V} {l : List (String × V)}
    (hn : (l.map Prod.fst).Nodup) (h : (k, v) ∈ l) : lookupEntries k l = some v := by
  induction l with
  | nil => simp at h
  | cons e rest ih =>
    obtain ⟨k', v'⟩ := e
    rw [List.map_cons, List.nodup_cons] at hn
    rcases List.mem_cons.mp h with heq | hmem
    · simp only [Prod.mk.injEq] at heq
      simp [lookupEntries, heq.1, heq.2]
    · have hk : ¬ k' = k := by
        intro hk
        apply hn.1
        rw [hk]
        exact List.mem_map.mpr ⟨(k, v), hmem, rfl⟩
      simp [lookupEntries, hk, ih hn.2 hmem]

theorem length_setEntries (k : String) (v : V) (l : List (String × V)) :
    (setEntries k v l).length = if k ∈ l.map Prod.fst then l.length else l.length + 1 := by
  have h := congrArg List.length (keys_setEntries k v l)
  rw [List.length_map] at h
  rw [h]
  by_cases hm : k ∈ l.map Prod.fst <;> simp [hm]

theorem ext_entries {m1 m2 : GoMap V} (h : m1.entries = m2.entries) : m1 = m2 := by
  cases m1; cases m2; cases h; rfl

theorem get?_set_self (m : GoMap V) (k : String) (v : V) : (m.set k v).get? k = some v :=
  lookupEntries_setEntries_self k v m.entries

theorem get?_set_ne (m : GoMap V) (k k2 : String) (v : V) (hne : k2 ≠ k) :
    (m.set k v).get? k2 = m.get? k2 :=
  lookupEntries_setEntries_ne k k2 v m.entries hne

theorem keys_set (m : GoMap V) (k : String) (v : V) :
    (m.set k v).keys = if k ∈ m.keys then m.keys else m.keys ++ [k] :=
  keys_setEntries k v m.entries

theorem get?_eq_none {m : GoMap V} {k : String} : m.get? k = none ↔ k ∉ m.keys :=
  lookupEntries_eq_none

theorem mem_of_get? {m : GoMap V} {k : String} {v : V} (h : m.get? k = some v) :
    (k, v) ∈ m.entries :=
  mem_of_lookupEntries h

theorem get?_of_mem {m : GoMap V} {k : String} {v : V} (h : (k, v) ∈ m.entries) :
    m.get? k = some v :=
  lookupEntries_of_mem m.nodup h

theorem mem_keys_of_get? {m : GoMap V} {k : String} {v : V} (h : m.get? k = some v) :
    k ∈ m.keys :=
  List.mem_map.mpr ⟨(k, v), mem_of_get? h, rfl⟩

theorem get?_isSome_of_mem_keys {m : GoMap V} {k : String} (h : k ∈ m.keys) :
    ∃ v, m.get? k = some v := by
  cases hg : m.get? k with
  | none => exact absurd h (get?_eq_none.mp hg)
  | some v => exact ⟨v, rfl⟩

end GoMap

/-! ## The dispatch router: invariant and loop lemmas -/

section RouterLemmas

variable {H Re Err : Type}

theorem inv_NewRouter (L : Lib Re Err) : (NewRouter : Router H Re).Inv L := by
  refine ⟨rfl, ?_⟩
  intro m routes hget
  have hmem := GoMap.mem_of_get? hget
  have hr : routes = newHandlers := by
    simp only [NewRouter, List.mem_cons, Prod.mk.injEq, List.mem_nil_iff, or_false] at hmem
    rcases hmem with h | h | h | h <;> exact h.2
  subst hr
  refine ⟨rfl, ?_⟩
  intro p re hp
  simp [newHandlers, GoMap.get?, GoMap.empty, GoMap.lookupEntries] at hp

theorem inv_Register (L : Lib Re Err) (router : Router H Re) (method route : String) (h : H)
    (hinv : router.Inv L) : (router.Register L method route h).2.Inv L := by
  unfold Router.Register
  simp only
  cases hget : router.Routes.get? (L.toLower method) with
  | none => exact hinv
  | some routes =>
    cases hc : L.compile route with
    | error err => exact hinv
    | ok re =>
      simp only
      obtain ⟨hkeys, hb⟩ := hinv
      have hmem : L.toLower method ∈ router.Routes.keys := GoMap.mem_keys_of_get? hget
      refine ⟨?_, ?_⟩
      · rw [GoMap.keys_set, if_pos hmem]
        exact hkeys
      · intro m2 routes2 hget2
        by_cases hm : m2 = L.toLower method
        · subst hm
          rw [GoMap.get?_set_self] at hget2
          have hr := (Option.some.inj hget2).symm
          subst hr
          obtain ⟨hk, hp⟩ := hb _ routes hget
          refine ⟨?_, ?_⟩
          · simp only [GoMap.keys_set, hk]
          · intro p re2 hp2
            by_cases hpr : p = route
            · subst hpr
              rw [GoMap.get?_set_self] at hp2
              rw [← Option.some.inj hp2]
              exact hc
            · rw [GoMap.get?_set_ne _ _ _ _ hpr] at hp2
              exact hp p re2 hp2
        · rw [GoMap.get?_set_ne _ _ _ _ hm] at hget2
          exact hb m2 routes2 hget2

theorem inv_of_reachable (L : Lib Re Err) {router : Router H Re}
    (hr : Reachable L router) : router.Inv L := by
  induction hr with
  | init => exact inv_NewRouter L
  | register router method route h _ ih => exact inv_Register L router method route h ih

/-- In a state satisfying the invariant every registered pattern has its compiled
expression stored in `patterns`. -/
theorem pattern_of_registered (L : Lib Re Err) {router : Router H Re} (hinv : router.Inv L)
    {m : String} {routes : handlers H Re} (hget : router.Routes.get? m = some routes)
    {p : String} {h : H} (hmem : (p, h) ∈ routes.registered.entries) :
    ∃ re, routes.patterns.get? p = some re ∧ L.compile p = .ok re := by
  obtain ⟨hk, hp⟩ := hinv.2 m routes hget
  have hpk : p ∈ routes.patterns.keys := by
    rw [← hk]
    exact List.mem_map.mpr ⟨(p, h), hmem, rfl⟩
  obtain ⟨re, hre⟩ := GoMap.get?_isSome_of_mem_keys hpk
  exact ⟨re, hre, hp p re hre⟩

theorem get?_isSome_of_supported (L : Lib Re Err) {router : Router H Re}
    (hinv : router.Inv L) {m : String} (hm : m ∈ supportedMethods) :
    ∃ routes, router.Routes.get? m = some routes := by
  apply GoMap.get?_isSome_of_mem_keys
  rw [hinv.1]
  exact hm

theorem get?_eq_none_of_unsupported (L : Lib Re Err) {router : Router H Re}
    (hinv : router.Inv L) {m : String} (hm : m ∉ supportedMethods) :
    router.Routes.get? m = none := by
  apply GoMap.get?_eq_none.mpr
  rw [hinv.1]
  exact hm

/-- The loop of `ServeHTTP` computes find-first as soon as every visited pattern has its
compiled expression stored. -/
theorem serveLoop_eq_findFirst (L : Lib Re Err) (patterns : GoMap Re) (u : String)
    (order : List (String × H))
    (hpat : ∀ e ∈ order, ∃ re, patterns.get? e.1 = some re ∧ L.compile e.1 = .ok re) :
    serveLoop L patterns u order = findFirst L u order := by
  induction order with
  | nil => rfl
  | cons e rest ih =>
    obtain ⟨p, h⟩ := e
    obtain ⟨re, hre, hc⟩ := hpat (p, h) (List.mem_cons_self _ _)
    have ih2 := ih (fun e he => hpat e (List.mem_cons_of_mem _ he))
    simp only at hre hc
    by_cases hm : L.matchString re u = true
    · simp [serveLoop, findFirst, patternMatches, hre, hc, hm]
    · simp only [serveLoop, hre, hm, if_false, ih2]
      simp [findFirst, patternMatches, hc, hm]

theorem findFirst_of_first (L : Lib Re Err) (u : String) (pre post : List (String × H))
    (p : String) (h : H) (hp : patternMatches L p u = true)
    (hpre : ∀ e ∈ pre, patternMatches L e.1 u = false) :
    findFirst L u (pre ++ (p, h) :: post) = .invoke h := by
  induction pre with
  | nil => simp [findFirst, hp]
  | cons e rest ih =>
    have he := hpre e (List.mem_cons_self _ _)
    have ih2 := ih (fun e he => hpre e (List.mem_cons_of_mem _ he))
    simp only [findFirst, List.cons_append, List.find?_cons, he] at ih2 ⊢
    exact ih2

theorem findFirst_eq_notFound (L : Lib Re Err) (u : String) (order : List (String × H)) :
    findFirst L u order = .notFound ↔ ∀ e ∈ order, patternMatches L e.1 u = false := by
  unfold findFirst
  cases hf : order.find? (fun e => patternMatches L e.1 u) with
  | none =>
    simp only [true_iff]
    intro e he
    have := List.find?_eq_none.mp hf e he
    simpa using this
  | some e =>
    constructor
    · intro h
      cases h
    intro hall
    exfalso
    have h1 := List.find?_some hf
    have h2 := List.mem_of_find?_eq_some hf
    rw [hall e h2] at h1
    exact Bool.false_ne_true h1

/-- When a single key of a duplicate-free enumeration matches the path, find-first returns
the handler stored under that key, wherever the entry stands. -/
theorem findFirst_unique (L : Lib Re Err) (u : String) (order : List (String × H))
    (p : String) (h : H) (hn : (order.map Prod.fst).Nodup) (hmem : (p, h) ∈ order)
    (hp : patternMatches L p u = true)
    (huniq : ∀ e ∈ order, patternMatches L e.1 u = true → e.1 = p) :
    findFirst L u order = .invoke h := by
  obtain ⟨pre, post, hsplit⟩ := List.append_of_mem hmem
  subst hsplit
  apply findFirst_of_first L u pre post p h hp
  intro e he
  cases hme : patternMatches L e.1 u with
  | false => rfl
  | true =>
    exfalso
    have hep : e.1 = p := huniq e (List.mem_append_left _ he) hme
    rw [List.map_append, List.map_cons, List.nodup_append] at hn
    have hdisj := hn.2.2
    have h1 : e.1 ∈ pre.map Prod.fst := List.mem_map.mpr ⟨e, he, rfl⟩
    have h2 : e.1 ∈ p :: post.map Prod.fst := by
      rw [hep]
      exact List.mem_cons_self _ _
    exact hdisj h1 h2

/-- Find-first does not depend on the enumeration when at most one key matches. -/
theorem findFirst_perm (L : Lib Re Err) (u : String) (o1 o2 : List (String × H))
    (hperm : o1.Perm o2) (hn : (o1.map Prod.fst).Nodup)
    (huniq : ∀ e1 ∈ o1, ∀ e2 ∈ o1, patternMatches L e1.1 u = true →
      patternMatches L e2.1 u = true → e1.1 = e2.1) :
    findFirst L u o1 = findFirst L u o2 := by
  have hn2 : (o2.map Prod.fst).Nodup := (hperm.map Prod.fst).nodup_iff.mp hn
  by_cases hex : ∃ e ∈ o1, patternMatches L e.1 u = true
  · obtain ⟨e, he, hme⟩ := hex
    obtain ⟨p, h⟩ := e
    rw [findFirst_unique L u o1 p h hn he hme (fun e2 he2 hm2 => huniq e2 he2 (p, h) he hm2 hme),
      findFirst_unique L u o2 p h hn2 (hperm.subset he) hme
        (fun e2 he2 hm2 => huniq e2 (hperm.symm.subset he2) (p, h) he hm2 hme)]
  · have hall : ∀ e ∈ o1, patternMatches L e.1 u = false := by
      intro e he
      cases hme : patternMatches L e.1 u with
      | false => rfl
      | true => exact absurd ⟨e, he, hme⟩ hex
    rw [(findFirst_eq_notFound L u o1).mpr hall,
      (findFirst_eq_notFound L u o2).mpr (fun e he => hall e (hperm.symm.subset he))]

/-- The successful path of `Register`. -/
theorem Register_ok (L : Lib Re Err) (router : Router H Re) (method route : String) (h : H)
    (routes : handlers H Re) (re : Re)
    (hget : router.Routes.get? (L.toLower method) = some routes)
    (hc : L.compile route = .ok re) :
    router.Register L method route h
      = (none,
          { Routes := router.Routes.set (L.toLower method)
              { registered := routes.registered.set route h
                patterns := routes.patterns.set route re } }) := by
  unfold Router.Register
  simp only [hget, hc]

/-- In a state satisfying the invariant `ServeHTTP` is find-first over the given order when
the method has a bucket, and `notFound` otherwise. -/
theorem ServeHTTP_eq_findFirst (L : Lib Re Err) (router : Router H Re) (method u : String)
    (order : List (String × H)) (hinv : router.Inv L)
    (ho : router.RangeOrder L method order) :
    router.ServeHTTP L order method u
      = match router.Routes.get? (L.toLower method) with
        | some _ => findFirst L u order
        | none => .notFound := by
  unfold Router.ServeHTTP
  simp only
  cases hget : router.Routes.get? (L.toLower method) with
  | none => rfl
  | some routes =>
    simp only
    apply serveLoop_eq_findFirst
    intro e he
    exact pattern_of_registered L hinv hget ((ho routes hget).subset he)

/-- An enumeration that is a permutation of the entries of the method's `registered` map is
an iteration order of the `range` loop. -/
theorem rangeOrder_of_entries (L : Lib Re Err) (router : Router H Re) (method : String)
    (order ents : List (String × H))
    (hents : (router.Routes.get? (L.toLower method)).map (fun b => b.registered.entries)
      = some ents)
    (hperm : order.Perm ents) : router.RangeOrder L method order := by
  intro routes hget
  rw [hget] at hents
  simp only [Option.map_some', Option.some.injEq] at hents
  rw [hents]
  exact hperm

/-- For a method without bucket the `range` loop is not entered: any enumeration will do. -/
theorem rangeOrder_of_no_bucket (L : Lib Re Err) (router : Router H Re) (method : String)
    (order : List (String × H))
    (hnone : (router.Routes.get? (L.toLower method)).isNone = true) :
    router.RangeOrder L method order := by
  intro routes hget
  rw [hget] at hnone
  cases hnone

theorem compile_ok_of_isOk (L : Lib Re Err) (p : String)
    (h : (L.compile p).toOption.isSome = true) : ∃ re, L.compile p = .ok re := by
  cases hc : L.compile p with
  | error e =>
    rw [hc] at h
    cases h
  | ok re => exact ⟨re, rfl⟩

theorem matchString_of_patternMatches_false (L : Lib Re Err) (p u : String) (re : Re)
    (hc : L.compile p = .ok re) (h : patternMatches L p u = false) :
    L.matchString re u = false := by
  unfold patternMatches at h
  rw [hc] at h
  exact h

end RouterLemmas

/-! ## Claims about the dispatch router -/

section RouterClaims

variable {H Re Err : Type}

/-- C1 (as stated, refuted): after `Register("GET", "$", A)` and a successful
`Register("GET", "\\.js$", B)` on a fresh router, the pattern `\.js$` matches the path
`/app.js`, yet for the iteration order that visits `$` first `ServeHTTP` on `GET /app.js`
invokes `A`, not the handler `B` just registered. -/
theorem C1_counterexample :
    Reachable refLib routerA ∧
    (routerA.Register refLib "GET" "\\.js$" "B").1 = none ∧
    patternMatches refLib "\\.js$" "/app.js" = true ∧
    (routerA.Register refLib "GET" "\\.js$" "B").2.RangeOrder refLib "GET"
      [("$", "A"), ("\\.js$", "B")] ∧
    (routerA.Register refLib "GET" "\\.js$" "B").2.ServeHTTP refLib
      [("$", "A"), ("\\.js$", "B")] "GET" "/app.js" = Decision.invoke "A" ∧
    (routerA.Register refLib "GET" "\\.js$" "B").2.ServeHTTP refLib
      [("$", "A"), ("\\.js$", "B")] "GET" "/app.js" ≠ Decision.invoke "B" := by
  refine ⟨Reachable.register _ _ _ _ Reachable.init, by decide, by decide, ?_, by decide,
    by decide⟩
  exact rangeOrder_of_entries refLib _ "GET" _ [("$", "A"), ("\\.js$", "B")] (by decide)
    (List.Perm.refl _)

/-- C1 (amended): in every router state reachable from `NewRouter` by `Register` calls,
when `Register(method, p, h)` returns nil for a pattern `p` that compiles and matches
`path`, `ServeHTTP` on a request with that method and path invokes `h` for every iteration
order of the bucket in which no pattern matching the path is visited before `p` (so for
every iteration order when `p` is the only pattern of the bucket that matches). -/
theorem C1_register_then_serve (L : Lib Re Err) (router : Router H Re)
    (method p path : String) (h : H) (re : Re) (order : List (String × H))
    (hr : Reachable L router)
    (hreg : (router.Register L method p h).1 = none)
    (hc : L.compile p = .ok re) (hm : L.matchString re path = true)
    (ho : (router.Register L method p h).2.RangeOrder L method order)
    (hfirst : ∀ pre post, order = pre ++ (p, h) :: post →
      ∀ e ∈ pre, patternMatches L e.1 path = false) :
    (router.Register L method p h).2.ServeHTTP L order method path = .invoke h := by
  have hinv : (router.Register L method p h).2.Inv L :=
    inv_of_reachable L (Reachable.register router method p h hr)
  revert hreg ho hinv
  unfold Router.Register
  simp only
  cases hget : router.Routes.get? (L.toLower method) with
  | none => intro hreg; simp at hreg
  | some routes =>
    simp only [hc]
    intro _ ho hinv
    have hget2 := GoMap.get?_set_self router.Routes (L.toLower method)
      ({ registered := routes.registered.set p h, patterns := routes.patterns.set p re } :
        handlers H Re)
    have hperm := ho _ hget2
    have hmemE : (p, h) ∈ (routes.registered.set p h).entries :=
      GoMap.mem_of_get? (GoMap.get?_set_self routes.registered p h)
    have hmemO : (p, h) ∈ order := hperm.symm.subset hmemE
    obtain ⟨pre, post, hsplit⟩ := List.append_of_mem hmemO
    have hpre := hfirst pre post hsplit
    unfold Router.ServeHTTP
    simp only [hget2]
    rw [serveLoop_eq_findFirst]
    · rw [hsplit]
      apply findFirst_of_first L path pre post p h _ hpre
      simp [patternMatches, hc, hm]
    · intro e he
      exact pattern_of_registered L hinv hget2 (hperm.subset he)

/-- C1 (amended), instance: on the router holding `GET $ -> A`, `Register("GET", "\\.js$", B)`
returns nil and, for the iteration order that visits `\.js$` first, `GET /app.js` invokes
`B`. -/
theorem C1_register_then_serve_witness :
    (routerA.Register refLib "GET" "\\.js$" "B").1 = none ∧
    (routerA.Register refLib "GET" "\\.js$" "B").2.RangeOrder refLib "GET"
      [("\\.js$", "B"), ("$", "A")] ∧
    (routerA.Register refLib "GET" "\\.js$" "B").2.ServeHTTP refLib
      [("\\.js$", "B"), ("$", "A")] "GET" "/app.js" = Decision.invoke "B" := by
  have ho : (routerA.Register refLib "GET" "\\.js$" "B").2.RangeOrder refLib "GET"
      [("\\.js$", "B"), ("$", "A")] :=
    rangeOrder_of_entries refLib _ "GET" _ [("$", "A"), ("\\.js$", "B")] (by decide)
      (List.Perm.swap _ _ _)
  refine ⟨by decide, ho, ?_⟩
  refine C1_register_then_serve refLib routerA "GET" "\\.js$" "/app.js" "B"
    (Rx.seq (Rx.chr '.') (Rx.seq (Rx.chr 'j') (Rx.seq (Rx.chr 's') Rx.eol)))
    [("\\.js$", "B"), ("$", "A")] (Reachable.register _ _ _ _ Reachable.init) (by decide)
    rfl (by decide) ho ?_
  intro pre post heq e he
  rcases pre with _ | ⟨x, _ | ⟨y, ys⟩⟩
  · simp at he
  · simp at heq
  · simp at heq

/-- C2 (code evaluated at the failing input): on a fresh router `POST("/submit", h)`,
`PUT("/submit", h)` and `DELETE("/submit", h)` each return nil, leave their own bucket
(`post`, `put`, `delete`) empty and store the pair in the `get` bucket, whereas
`Register("POST", "/submit", h)` stores it in the `post` bucket and leaves `get` empty. -/
theorem C2_wrappers_store_in_get_bucket :
    ((NewRouter : Router String Rx).POST refLib "/submit" "h").1 = none ∧
    (((NewRouter : Router String Rx).POST refLib "/submit" "h").2.Routes.get? "post").map
      (fun b => b.registered.entries) = some [] ∧
    (((NewRouter : Router String Rx).POST refLib "/submit" "h").2.Routes.get? "get").map
      (fun b => b.registered.entries) = some [("/submit", "h")] ∧
    ((NewRouter : Router String Rx).PUT refLib "/submit" "h").1 = none ∧
    (((NewRouter : Router String Rx).PUT refLib "/submit" "h").2.Routes.get? "put").map
      (fun b => b.registered.entries) = some [] ∧
    (((NewRouter : Router String Rx).PUT refLib "/submit" "h").2.Routes.get? "get").map
      (fun b => b.registered.entries) = some [("/submit", "h")] ∧
    ((NewRouter : Router String Rx).DELETE refLib "/submit" "h").1 = none ∧
    (((NewRouter : Router String Rx).DELETE refLib "/submit" "h").2.Routes.get? "delete").map
      (fun b => b.registered.entries) = some [] ∧
    (((NewRouter : Router String Rx).DELETE refLib "/submit" "h").2.Routes.get? "get").map
      (fun b => b.registered.entries) = some [("/submit", "h")] ∧
    ((NewRouter : Router String Rx).Register refLib MethodPost "/submit" "h").1 = none ∧
    (((NewRouter : Router String Rx).Register refLib MethodPost "/submit" "h").2.Routes.get?
      "post").map (fun b => b.registered.entries) = some [("/submit", "h")] ∧
    (((NewRouter : Router String Rx).Register refLib MethodPost "/submit" "h").2.Routes.get?
      "get").map (fun b => b.registered.entries) = some [] := by
  decide

/-- C3: in every router state reachable from `NewRouter` by `Register` calls, for every
method whose lower-cased form is none of `get`, `post`, `put`, `delete`, every pattern
string and every handler, `Register` returns exactly
`ErrCouldNotRegisterUnsupportedMethod` and the router after the call is the router
before it. -/
theorem C3_unsupported_method (L : Lib Re Err) (router : Router H Re)
    (method route : String) (h : H) (hr : Reachable L router)
    (hm : L.toLower method ∉ supportedMethods) :
    router.Register L method route h = (some ErrCouldNotRegisterUnsupportedMethod, router) := by
  have hnone := get?_eq_none_of_unsupported L (inv_of_reachable L hr) hm
  unfold Router.Register
  simp only [hnone]

/-- C3, instance: `Register("PATCH", "/$", B)` on the router holding `GET $ -> A` fails with
`ErrCouldNotRegisterUnsupportedMethod` and leaves the router as it was. -/
theorem C3_unsupported_method_witness :
    refLib.toLower "PATCH" ∉ supportedMethods ∧
    routerA.Register refLib "PATCH" "/$" "B"
      = (some ErrCouldNotRegisterUnsupportedMethod, routerA) :=
  ⟨by decide,
    C3_unsupported_method refLib routerA "PATCH" "/$" "B"
      (Reachable.register _ _ _ _ Reachable.init) (by decide)⟩

/-- C4: for every router state, method string and handler, when the pattern string fails
to compile `Register` returns a non-nil error and the router after the call is the router
before it (no map of any bucket gains or changes an entry). -/
theorem C4_invalid_pattern (L : Lib Re Err) (router : Router H Re)
    (method route : String) (h : H) (err : Err) (hc : L.compile route = .error err) :
    (router.Register L method route h).1 ≠ none ∧
    (router.Register L method route h).2 = router := by
  unfold Router.Register
  simp only
  cases router.Routes.get? (L.toLower method) with
  | none => simp
  | some routes => simp [hc]

/-- C4, instance: on the router holding `GET $ -> A`, `Register("GET", "(", B)` with the
malformed pattern `(` fails and changes nothing. -/
theorem C4_invalid_pattern_witness :
    refLib.compile "(" = .error "missing closing )" ∧
    (routerA.Register refLib "GET" "(" "B").1 ≠ none ∧
    (routerA.Register refLib "GET" "(" "B").2 = routerA :=
  ⟨rfl, C4_invalid_pattern refLib routerA "GET" "(" "B" "missing closing )" rfl⟩

/-- C5: in every router state reachable from `NewRouter` by `Register` calls and for every
request, for every enumeration order of the entries of the method's bucket `ServeHTTP` is
find-first over that order: it invokes the handler of the first entry whose pattern's
compiled expression matches the path (a handler stored in the bucket under a matching
pattern), it answers NotFound exactly when no pattern of the bucket matches the path or
the method has no bucket, and it never reaches a missing compiled pattern. -/
theorem C5_serve_is_find_first (L : Lib Re Err) (router : Router H Re) (method u : String)
    (order : List (String × H)) (hr : Reachable L router)
    (ho : router.RangeOrder L method order) :
    (router.ServeHTTP L order method u
      = match router.Routes.get? (L.toLower method) with
        | some _ => findFirst L u order
        | none => .notFound) ∧
    (∀ h, router.ServeHTTP L order method u = .invoke h →
      ∃ routes p, router.Routes.get? (L.toLower method) = some routes ∧
        routes.registered.get? p = some h ∧ patternMatches L p u = true) ∧
    (router.ServeHTTP L order method u = .notFound ↔
      ∀ routes, router.Routes.get? (L.toLower method) = some routes →
        ∀ p ∈ routes.registered.keys, patternMatches L p u = false) ∧
    router.ServeHTTP L order method u ≠ .nilPattern := by
  have hinv := inv_of_reachable L hr
  have heq := ServeHTTP_eq_findFirst L router method u order hinv ho
  refine ⟨heq, ?_, ?_, ?_⟩
  · intro h hh
    rw [heq] at hh
    cases hget : router.Routes.get? (L.toLower method) with
    | none => simp [hget] at hh
    | some routes =>
      simp only [hget, findFirst] at hh
      cases hf : order.find? (fun e => patternMatches L e.1 u) with
      | none => simp [hf] at hh
      | some e =>
        simp only [hf, Decision.invoke.injEq] at hh
        have hmem : e ∈ routes.registered.entries :=
          (ho routes hget).subset (List.mem_of_find?_eq_some hf)
        have hme : patternMatches L e.1 u = true := by
          have hsome := List.find?_some hf
          exact hsome
        refine ⟨routes, e.1, rfl, ?_, hme⟩
        rw [← hh]
        exact GoMap.get?_of_mem hmem
  · rw [heq]
    cases hget : router.Routes.get? (L.toLower method) with
    | none => simp
    | some routes =>
      simp only [findFirst_eq_notFound, Option.some.injEq, forall_eq']
      have hperm := ho routes hget
      constructor
      · intro hall p hp
        obtain ⟨e, he, hep⟩ := List.mem_map.mp hp
        rw [← hep]
        exact hall e (hperm.symm.subset he)
      · intro hall e he
        exact hall e.1 (List.mem_map.mpr ⟨e, hperm.subset he, rfl⟩)
  · rw [heq]
    cases hget : router.Routes.get? (L.toLower method) with
    | none => simp
    | some routes =>
      simp only [findFirst]
      cases order.find? (fun e => patternMatches L e.1 u) <;> simp

/-- C5, instance: on the router holding `GET $ -> A` and `GET \.js$ -> B`, with the
iteration order that visits `\.js$` first, `GET /app.js` invokes `B`, the handler of the
first matching pattern in that order. -/
theorem C5_serve_is_find_first_witness :
    routerAB.RangeOrder refLib "GET" [("\\.js$", "B"), ("$", "A")] ∧
    routerAB.ServeHTTP refLib [("\\.js$", "B"), ("$", "A")] "GET" "/app.js"
      = (match routerAB.Routes.get? (refLib.toLower "GET") with
        | some _ => findFirst refLib "/app.js" [("\\.js$", "B"), ("$", "A")]
        | none => Decision.notFound) ∧
    findFirst refLib "/app.js" [("\\.js$", "B"), ("$", "A")] = Decision.invoke "B" :=
  ⟨rangeOrder_of_entries refLib routerAB "GET" _ [("$", "A"), ("\\.js$", "B")] (by decide)
      (List.Perm.swap _ _ _),
    (C5_serve_is_find_first refLib routerAB "GET" "/app.js" [("\\.js$", "B"), ("$", "A")]
      (Reachable.register _ _ _ _ (Reachable.register _ _ _ _ Reachable.init))
      (rangeOrder_of_entries refLib routerAB "GET" _ [("$", "A"), ("\\.js$", "B")] (by decide)
        (List.Perm.swap _ _ _))).1,
    by decide⟩

/-- C6 (as stated, refuted): the router holding `GET $ -> A` and `GET \.js$ -> B` is
reachable, both enumerations of its `get` bucket are iteration orders of the `range` loop,
and on the same request `GET /app.js` against the same state `ServeHTTP` invokes `A` under
one and `B` under the other. -/
theorem C6_counterexample :
    Reachable refLib routerAB ∧
    routerAB.RangeOrder refLib "GET" [("$", "A"), ("\\.js$", "B")] ∧
    routerAB.RangeOrder refLib "GET" [("\\.js$", "B"), ("$", "A")] ∧
    routerAB.ServeHTTP refLib [("$", "A"), ("\\.js$", "B")] "GET" "/app.js"
      = Decision.invoke "A" ∧
    routerAB.ServeHTTP refLib [("\\.js$", "B"), ("$", "A")] "GET" "/app.js"
      = Decision.invoke "B" ∧
    routerAB.ServeHTTP refLib [("$", "A"), ("\\.js$", "B")] "GET" "/app.js"
      ≠ routerAB.ServeHTTP refLib [("\\.js$", "B"), ("$", "A")] "GET" "/app.js" :=
  ⟨Reachable.register _ _ _ _ (Reachable.register _ _ _ _ Reachable.init),
    rangeOrder_of_entries refLib routerAB "GET" _ [("$", "A"), ("\\.js$", "B")] (by decide)
      (List.Perm.refl _),
    rangeOrder_of_entries refLib routerAB "GET" _ [("$", "A"), ("\\.js$", "B")] (by decide)
      (List.Perm.swap _ _ _),
    by decide, by decide, by decide⟩

/-- C6 (amended): in every router state reachable from `NewRouter` by `Register` calls and
for every request for which at most one pattern of the method's bucket matches the path,
two runs of `ServeHTTP` against the same state make the same routing decision, whatever
iteration orders the two runs take. -/
theorem C6_deterministic_when_unambiguous (L : Lib Re Err) (router : Router H Re)
    (method u : String) (o1 o2 : List (String × H)) (hr : Reachable L router)
    (h1 : router.RangeOrder L method o1) (h2 : router.RangeOrder L method o2)
    (huniq : ∀ routes, router.Routes.get? (L.toLower method) = some routes →
      ∀ p ∈ routes.registered.keys, ∀ q ∈ routes.registered.keys,
        patternMatches L p u = true → patternMatches L q u = true → p = q) :
    router.ServeHTTP L o1 method u = router.ServeHTTP L o2 method u := by
  have hinv := inv_of_reachable L hr
  rw [ServeHTTP_eq_findFirst L router method u o1 hinv h1,
    ServeHTTP_eq_findFirst L router method u o2 hinv h2]
  cases hget : router.Routes.get? (L.toLower method) with
  | none => rfl
  | some routes =>
    simp only
    have hp1 := h1 routes hget
    have hp2 := h2 routes hget
    apply findFirst_perm L u o1 o2 (hp1.trans hp2.symm)
    · exact (hp1.map Prod.fst).nodup_iff.mpr routes.registered.nodup
    · intro e1 he1 e2 he2 hm1 hm2
      exact huniq routes hget e1.1 (List.mem_map.mpr ⟨e1, hp1.subset he1, rfl⟩) e2.1
        (List.mem_map.mpr ⟨e2, hp1.subset he2, rfl⟩) hm1 hm2

/-- C6 (amended), instance: on the router holding `GET $ -> A` and `GET \.js$ -> B` the path
`/app.css` is matched by `$` only, and both iteration orders make the same decision. -/
theorem C6_deterministic_when_unambiguous_witness :
    routerAB.ServeHTTP refLib [("$", "A"), ("\\.js$", "B")] "GET" "/app.css"
      = routerAB.ServeHTTP refLib [("\\.js$", "B"), ("$", "A")] "GET" "/app.css" := by
  refine C6_deterministic_when_unambiguous refLib routerAB "GET" "/app.css" _ _
    (Reachable.register _ _ _ _ (Reachable.register _ _ _ _ Reachable.init))
    (rangeOrder_of_entries refLib routerAB "GET" _ [("$", "A"), ("\\.js$", "B")] (by decide)
      (List.Perm.refl _))
    (rangeOrder_of_entries refLib routerAB "GET" _ [("$", "A"), ("\\.js$", "B")] (by decide)
      (List.Perm.swap _ _ _)) ?_
  intro routes hget p hp q hq hmp hmq
  have hk : (routerAB.Routes.get? (refLib.toLower "GET")).map (fun b => b.registered.keys)
      = some ["$", "\\.js$"] := by decide
  rw [hget] at hk
  simp only [Option.map_some', Option.some.injEq] at hk
  rw [hk] at hp hq
  have hjs : patternMatches refLib "\\.js$" "/app.css" = false := by decide
  simp only [List.mem_cons, List.mem_singleton, List.mem_nil_iff, or_false] at hp hq
  rcases hp with hp | hp <;> rcases hq with hq | hq <;> subst hp <;> subst hq
  · rfl
  · rw [hjs] at hmq
    exact absurd hmq (by decide)
  · rw [hjs] at hmp
    exact absurd hmp (by decide)
  · rfl

/-- C7: in every router state reachable from `NewRouter` by `Register` calls, a request
whose lower-cased method is none of `get`, `post`, `put`, `delete`, or whose method's
bucket holds zero patterns, is answered NotFound and no handler is invoked; and every
request against a fresh `NewRouter()` is answered NotFound. -/
theorem C7_not_found (L : Lib Re Err) :
    (∀ (router : Router H Re) (method u : String) (order : List (String × H)),
      Reachable L router → router.RangeOrder L method order →
      (L.toLower method ∉ supportedMethods ∨
        ∀ routes, router.Routes.get? (L.toLower method) = some routes →
          routes.registered.len = 0 ∨ routes.patterns.len = 0) →
      router.ServeHTTP L order method u = .notFound) ∧
    (∀ (method u : String) (order : List (String × H)),
      (NewRouter : Router H Re).RangeOrder L method order →
      (NewRouter : Router H Re).ServeHTTP L order method u = .notFound) := by
  have main : ∀ (router : Router H Re) (method u : String) (order : List (String × H)),
      Reachable L router → router.RangeOrder L method order →
      (L.toLower method ∉ supportedMethods ∨
        ∀ routes, router.Routes.get? (L.toLower method) = some routes →
          routes.registered.len = 0 ∨ routes.patterns.len = 0) →
      router.ServeHTTP L order method u = .notFound := by
    intro router method u order hr ho h
    have hinv := inv_of_reachable L hr
    unfold Router.ServeHTTP
    simp only
    cases hget : router.Routes.get? (L.toLower method) with
    | none => rfl
    | some routes =>
      simp only
      rcases h with h | h
      · rw [get?_eq_none_of_unsupported L hinv h] at hget
        cases hget
      · have hkeys := (hinv.2 _ routes hget).1
        have hlen : routes.registered.entries.length = 0 := by
          rcases h routes hget with h0 | h0
          · exact h0
          · have := congrArg List.length hkeys
            simp only [GoMap.keys, List.length_map] at this
            rw [this]
            exact h0
        have hnil : routes.registered.entries = [] := List.length_eq_zero.mp hlen
        have hperm := ho routes hget
        rw [hnil] at hperm
        rw [hperm.eq_nil]
        rfl
  refine ⟨main, ?_⟩
  intro method u order ho
  apply main NewRouter method u order Reachable.init ho
  right
  intro routes hget
  have hmem := GoMap.mem_of_get? hget
  have hr : routes = newHandlers := by
    simp only [NewRouter, List.mem_cons, Prod.mk.injEq, List.mem_nil_iff, or_false] at hmem
    rcases hmem with h | h | h | h <;> exact h.2
  subst hr
  left
  rfl

/-- C7, instance: on the router holding `GET $ -> A`, the requests `PATCH /` (no bucket) and
`POST /` (empty bucket) are answered NotFound. -/
theorem C7_not_found_witness :
    routerA.ServeHTTP refLib [] "PATCH" "/" = Decision.notFound ∧
    routerA.ServeHTTP refLib [] "POST" "/" = Decision.notFound :=
  ⟨(C7_not_found refLib).1 routerA "PATCH" "/" []
      (Reachable.register _ _ _ _ Reachable.init)
      (rangeOrder_of_no_bucket refLib routerA "PATCH" [] (by decide))
      (Or.inl (by decide)),
    (C7_not_found refLib).1 routerA "POST" "/" []
      (Reachable.register _ _ _ _ Reachable.init)
      (rangeOrder_of_entries refLib routerA "POST" _ [] (by decide) (List.Perm.refl _))
      (Or.inr (fun routes hget => Or.inl (by
        have hk : (routerA.Routes.get? (refLib.toLower "POST")).map
            (fun b => b.registered.len) = some 0 := by decide
        rw [hget] at hk
        exact Option.some.inj hk)))⟩

/-- C8: with `strings.ToLower("GET") = "get"`, in every router state reachable from
`NewRouter` by `Register` calls and for every GET request for which exactly one pattern
`p` of the `get` bucket matches the path, `ServeHTTP` invokes the handler registered under
`p` whatever the iteration order of the bucket.  For the router of `TestExampleUsage`
(`GET("/$", A)` then `GET(assetPattern, B)`), given that both patterns compile, that `/$`
matches `/` and that the asset pattern does not, `GET /` invokes `A`. -/
theorem C8_non_overlapping (L : Lib Re Err) (hGET : L.toLower MethodGet = "get") :
    (∀ (router : Router H Re) (routes : handlers H Re) (p u : String) (h : H)
        (order : List (String × H)),
      Reachable L router → router.Routes.get? "get" = some routes →
      routes.registered.get? p = some h →
      patternMatches L p u = true →
      (∀ q ∈ routes.registered.keys, patternMatches L q u = true → q = p) →
      order.Perm routes.registered.entries →
      router.ServeHTTP L order MethodGet u = .invoke h) ∧
    (∀ (A B : H) (re1 re2 : Re) (order : List (String × H)),
      L.compile "/$" = .ok re1 → L.compile assetPattern = .ok re2 →
      L.matchString re1 "/" = true → L.matchString re2 "/" = false →
      (testRouter L A B).RangeOrder L MethodGet order →
      (testRouter L A B).ServeHTTP L order MethodGet "/" = .invoke A) := by
  have main : ∀ (router : Router H Re) (routes : handlers H Re) (p u : String) (h : H)
        (order : List (String × H)),
      Reachable L router → router.Routes.get? "get" = some routes →
      routes.registered.get? p = some h →
      patternMatches L p u = true →
      (∀ q ∈ routes.registered.keys, patternMatches L q u = true → q = p) →
      order.Perm routes.registered.entries →
      router.ServeHTTP L order MethodGet u = .invoke h := by
    intro router routes p u h order hr hget hph hm huniq hperm
    have hinv := inv_of_reachable L hr
    have ho : router.RangeOrder L MethodGet order := by
      intro routes2 hget2
      rw [hGET, hget] at hget2
      cases hget2
      exact hperm
    rw [ServeHTTP_eq_findFirst L router MethodGet u order hinv ho, hGET, hget]
    simp only
    apply findFirst_unique L u order p h
    · exact (hperm.map Prod.fst).nodup_iff.mpr routes.registered.nodup
    · exact hperm.symm.subset (GoMap.mem_of_get? hph)
    · exact hm
    · intro e he hme
      exact huniq e.1 (List.mem_map.mpr ⟨e, hperm.subset he, rfl⟩) hme
  refine ⟨main, ?_⟩
  intro A B re1 re2 order hc1 hc2 hm1 hm2 ho
  have hne : assetPattern ≠ "/$" := by decide
  have hg0 : (NewRouter : Router H Re).Routes.get? (L.toLower MethodGet)
      = some newHandlers := by
    rw [hGET]
    rfl
  have hr1 := Register_ok L (NewRouter : Router H Re) MethodGet "/$" A newHandlers re1 hg0 hc1
  have hg1 : (NewRouter.GET L "/$" A).2.Routes.get? (L.toLower MethodGet)
      = some { registered := (newHandlers : handlers H Re).registered.set "/$" A
               patterns := (newHandlers : handlers H Re).patterns.set "/$" re1 } := by
    unfold Router.GET
    rw [hr1]
    exact GoMap.get?_set_self _ _ _
  have hr2 := Register_ok L (NewRouter.GET L "/$" A).2 MethodGet assetPattern B _ re2 hg1 hc2
  have hg2 : (testRouter L A B).Routes.get? "get"
      = some { registered :=
                 ((newHandlers : handlers H Re).registered.set "/$" A).set assetPattern B
               patterns :=
                 ((newHandlers : handlers H Re).patterns.set "/$" re1).set assetPattern re2 } := by
    unfold testRouter
    rw [show (NewRouter.GET L "/$" A).2.GET L assetPattern B
      = (NewRouter.GET L "/$" A).2.Register L MethodGet assetPattern B from rfl, hr2, ← hGET]
    exact GoMap.get?_set_self _ _ _
  have hreach : Reachable L (testRouter L A B) :=
    Reachable.register _ _ _ _ (Reachable.register _ _ _ _ Reachable.init)
  have hperm := ho _ (by rw [hGET]; exact hg2)
  apply main (testRouter L A B) _ "/$" "/" A order hreach hg2 _ _ _ hperm
  · simp only
    rw [GoMap.get?_set_ne _ _ _ _ (Ne.symm hne)]
    exact GoMap.get?_set_self _ _ _
  · simp [patternMatches, hc1, hm1]
  · intro q hq hmq
    have hne2 : ¬ "/$" = assetPattern := Ne.symm hne
    simp only [GoMap.set, GoMap.setEntries, newHandlers, GoMap.empty, GoMap.keys, hne2,
      if_false, List.map_cons, List.map_nil, List.mem_cons, List.mem_nil_iff, or_false] at hq
    rcases hq with hq | hq
    · exact hq
    · subst hq
      simp [patternMatches, hc2, hm2] at hmq

/-- C8, instance: with the reference library, `GET /` on the router of `TestExampleUsage`
invokes `A`, under both iteration orders of the `get` bucket. -/
theorem C8_non_overlapping_witness :
    refLib.toLower MethodGet = "get" ∧
    patternMatches refLib "/$" "/" = true ∧
    patternMatches refLib assetPattern "/" = false ∧
    (testRouter refLib "A" "B").ServeHTTP refLib [("/$", "A"), (assetPattern, "B")]
      MethodGet "/" = Decision.invoke "A" ∧
    (testRouter refLib "A" "B").ServeHTTP refLib [(assetPattern, "B"), ("/$", "A")]
      MethodGet "/" = Decision.invoke "A" := by
  have hpm : patternMatches refLib assetPattern "/" = false := by decide!
  obtain ⟨re2, hre2⟩ := compile_ok_of_isOk refLib assetPattern (by decide!)
  have hm2 := matchString_of_patternMatches_false refLib assetPattern "/" re2 hre2 hpm
  have hents : ((testRouter refLib "A" "B").Routes.get? (refLib.toLower MethodGet)).map
      (fun b => b.registered.entries) = some [("/$", "A"), (assetPattern, "B")] := by
    decide!
  refine ⟨by decide, by decide, hpm, ?_, ?_⟩
  · exact (C8_non_overlapping refLib (by decide)).2 "A" "B" (Rx.seq (Rx.chr '/') Rx.eol) re2
      _ rfl hre2 (by decide) hm2
      (rangeOrder_of_entries refLib _ MethodGet _ _ hents (List.Perm.refl _))
  · exact (C8_non_overlapping refLib (by decide)).2 "A" "B" (Rx.seq (Rx.chr '/') Rx.eol) re2
      _ rfl hre2 (by decide) hm2
      (rangeOrder_of_entries refLib _ MethodGet _ _ hents (List.Perm.swap _ _ _))

/-- C9: in every router state reachable from `NewRouter` by `Register` calls, for every
supported method `m`, compilable pattern `p` and handlers `h1`, `h2`, both
`Register(m, p, h1)` and the following `Register(m, p, h2)` return nil, and afterwards the
bucket of `m` holds exactly one entry keyed `p`, whose handler is `h2`, and as many entries
as after the first call alone. -/
theorem C9_last_registration_wins (L : Lib Re Err) (router : Router H Re) (m p : String)
    (h1 h2 : H) (re : Re) (hr : Reachable L router)
    (hm : L.toLower m ∈ supportedMethods) (hc : L.compile p = .ok re) :
    ∃ b1 b2 : handlers H Re,
      (router.Register L m p h1).1 = none ∧
      ((router.Register L m p h1).2.Register L m p h2).1 = none ∧
      (router.Register L m p h1).2.Routes.get? (L.toLower m) = some b1 ∧
      ((router.Register L m p h1).2.Register L m p h2).2.Routes.get? (L.toLower m) = some b2 ∧
      b2.registered.get? p = some h2 ∧
      (∀ h, (p, h) ∈ b2.registered.entries → h = h2) ∧
      b2.registered.keys.count p = 1 ∧
      b2.registered.len = b1.registered.len := by
  obtain ⟨b0, hb0⟩ := get?_isSome_of_supported L (inv_of_reachable L hr) hm
  have hr1 := Register_ok L router m p h1 b0 re hb0 hc
  have hg1 : (router.Register L m p h1).2.Routes.get? (L.toLower m)
      = some { registered := b0.registered.set p h1, patterns := b0.patterns.set p re } := by
    rw [hr1]
    exact GoMap.get?_set_self _ _ _
  have hr2 := Register_ok L (router.Register L m p h1).2 m p h2 _ re hg1 hc
  have hg2 : ((router.Register L m p h1).2.Register L m p h2).2.Routes.get? (L.toLower m)
      = some { registered := (b0.registered.set p h1).set p h2
               patterns := (b0.patterns.set p re).set p re } := by
    rw [hr2]
    exact GoMap.get?_set_self _ _ _
  have hself : ((b0.registered.set p h1).set p h2).get? p = some h2 :=
    GoMap.get?_set_self _ _ _
  have hmem1 : p ∈ (b0.registered.set p h1).keys :=
    GoMap.mem_keys_of_get? (GoMap.get?_set_self _ _ _)
  refine ⟨_, _, ?_, ?_, hg1, hg2, hself, ?_, ?_, ?_⟩
  · rw [hr1]
  · rw [hr2]
  · intro h hmem
    have := GoMap.get?_of_mem hmem
    rw [hself] at this
    exact (Option.some.inj this).symm
  · exact List.count_eq_one_of_mem ((b0.registered.set p h1).set p h2).nodup
      (GoMap.mem_keys_of_get? hself)
  · show (GoMap.setEntries p h2 (b0.registered.set p h1).entries).length = _
    rw [GoMap.length_setEntries]
    have : p ∈ List.map Prod.fst (b0.registered.set p h1).entries := hmem1
    rw [if_pos this]
    rfl

/-- C9, instance: on the router holding `GET $ -> A`, after `Register("GET", "/$", "h1")`
and `Register("GET", "/$", "h2")` the `get` bucket holds `$ -> A` and `/$ -> h2`. -/
theorem C9_last_registration_wins_witness :
    (∃ b1 b2 : handlers String Rx,
      (routerA.Register refLib "GET" "/$" "h1").1 = none ∧
      ((routerA.Register refLib "GET" "/$" "h1").2.Register refLib "GET" "/$" "h2").1 = none ∧
      (routerA.Register refLib "GET" "/$" "h1").2.Routes.get? (refLib.toLower "GET")
        = some b1 ∧
      ((routerA.Register refLib "GET" "/$" "h1").2.Register refLib "GET" "/$"
        "h2").2.Routes.get? (refLib.toLower "GET") = some b2 ∧
      b2.registered.get? "/$" = some "h2" ∧
      (∀ h, ("/$", h) ∈ b2.registered.entries → h = "h2") ∧
      b2.registered.keys.count "/$" = 1 ∧
      b2.registered.len = b1.registered.len) ∧
    (((routerA.Register refLib "GET" "/$" "h1").2.Register refLib "GET" "/$"
      "h2").2.Routes.get? "get").map (fun b => b.registered.entries)
      = some [("$", "A"), ("/$", "h2")] :=
  ⟨C9_last_registration_wins refLib routerA "GET" "/$" "h1" "h2" (Rx.seq (Rx.chr '/') Rx.eol)
      (Reachable.register _ _ _ _ Reachable.init) (by decide) rfl,
    by decide⟩

end RouterClaims

/-! ## Claims about the entrypoint handler -/

section EntrypointClaims

theorem lastRegistered_cons (route : String) (c : String × String)
    (rest : List (String × String)) :
    lastRegistered route (c :: rest)
      = (lastRegistered route rest).or (if c.1 = route then some c.2 else none) := by
  unfold lastRegistered
  rw [List.reverse_cons, List.find?_append]
  cases hf : rest.reverse.find? (fun c => decide (c.1 = route)) with
  | some e => simp
  | none =>
    by_cases hc : c.1 = route <;> simp [List.find?_cons, hc]

theorem get?_registerAll (router : EntrypointRouter) (calls : List (String × String))
    (path : String) :
    (router.registerAll calls).entrypoints.get? path
      = (lastRegistered path calls).or (router.entrypoints.get? path) := by
  induction calls generalizing router with
  | nil => simp [EntrypointRouter.registerAll, lastRegistered]
  | cons c rest ih =>
    obtain ⟨route, filepath⟩ := c
    rw [EntrypointRouter.registerAll, ih, lastRegistered_cons]
    cases lastRegistered path rest with
    | some f => simp
    | none =>
      by_cases hc : route = path
      · subst hc
        simp [EntrypointRouter.RegisterFile, GoMap.get?_set_self]
      · have hne : path ≠ route := fun h => hc h.symm
        simp [EntrypointRouter.RegisterFile, GoMap.get?_set_ne _ _ _ _ hne, hc]

/-- C10: for every entrypoint table (any table `router`, extended by any sequence `calls`
of `RegisterFile` calls), every method and every path, `EntrypointRouter.ServeHTTP` answers
`405 MethodNotAllowed` when the method is not `GET`, whether or not the path is registered;
for `GET` it serves the file whose path was most recently passed to `RegisterFile` for
exactly that route (the file already associated in `router` when no call names the route),
and answers NotFound when the route is not a key of the table. -/
theorem C10_entrypoint_decision_table (router : EntrypointRouter)
    (calls : List (String × String)) (method path : String) :
    (router.registerAll calls).ServeHTTP method path
      = if method = "GET" then
          match lastRegistered path calls with
          | some f => .serveFile f
          | none =>
            match router.entrypoints.get? path with
            | some f => .serveFile f
            | none => .notFound
        else .error ("cannot " ++ method ++ " " ++ path) 405 := by
  unfold EntrypointRouter.ServeHTTP
  rw [get?_registerAll]
  by_cases hm : method = "GET"
  · simp only [MethodGet, hm, if_true]
    cases lastRegistered path calls with
    | some f => rfl
    | none => rfl
  · simp only [MethodGet, hm, if_false, StatusMethodNotAllowed]

end EntrypointClaims

/-! ## Claims about the resource handler -/

section ResourceClaims

theorem mem_setEntries {V : Type} {k : String} {v : V} {l : List (String × V)}
    {e : String × V} (h : e ∈ GoMap.setEntries k v l) : e = (k, v) ∨ e ∈ l := by
  induction l with
  | nil =>
    simp only [GoMap.setEntries, List.mem_singleton] at h
    exact Or.inl h
  | cons x rest ih =>
    obtain ⟨k', v'⟩ := x
    by_cases hk : k' = k
    · simp only [GoMap.setEntries, hk, if_true, List.mem_cons] at h
      rcases h with h | h
      · exact Or.inl h
      · exact Or.inr (List.mem_cons_of_mem _ h)
    · simp only [GoMap.setEntries, hk, if_false, List.mem_cons] at h
      rcases h with h | h
      · exact Or.inr (h ▸ List.mem_cons_self _ _)
      · rcases ih h with h2 | h2
        · exact Or.inl h2
        · exact Or.inr (List.mem_cons_of_mem _ h2)

/-- Every entry of the map after a sequence of `RegisterDirectory` calls was there before
or pairs one of the directories with its file server. -/
theorem mem_registerAll (router : ResourceRouter) (dirs : List String)
    (e : String × ResourceHandler) (h : e ∈ (router.registerAll dirs).resources.entries) :
    e ∈ router.resources.entries ∨ (e.1 ∈ dirs ∧ e.2 = ResourceHandler.fileServer e.1) := by
  induction dirs generalizing router with
  | nil => exact Or.inl h
  | cons dir rest ih =>
    rcases ih (router.RegisterDirectory dir) h with h1 | h1
    · rcases mem_setEntries h1 with h2 | h2
      · right
        subst h2
        exact ⟨List.mem_cons_self _ _, rfl⟩
      · exact Or.inl h2
    · exact Or.inr ⟨List.mem_cons_of_mem _ h1.1, h1.2⟩

/-- C11 (as stated, refuted): after `RegisterDirectory("/a")` then `RegisterDirectory("/b")`,
with `/logo.png` missing under `/a`, the first registered directory, and present under
`/b`, the iteration order that visits `/b` first is an iteration order of the map, and
under it `ServeHTTP` stats `/b/logo.png` and delegates to the file server of `/b`: no 404
is answered. -/
theorem C11_counterexample :
    resourcesAB = NewResourceRouter.registerAll ["/a", "/b"] ∧
    (refFS ["/b/logo.png"] []).stat ((refFS ["/b/logo.png"] []).join "/a" "/logo.png")
      = some (RefFsError.notExist "/a/logo.png") ∧
    (refFS ["/b/logo.png"] []).isNotExist (RefFsError.notExist "/a/logo.png") = true ∧
    resourcesAB.RangeOrder
      [("/b", ResourceHandler.fileServer "/b"), ("/a", ResourceHandler.fileServer "/a")] ∧
    resourcesAB.ServeHTTP (refFS ["/b/logo.png"] [])
      [("/b", ResourceHandler.fileServer "/b"), ("/a", ResourceHandler.fileServer "/a")]
      "/logo.png"
      = [ResourceEvent.stat "/b/logo.png",
          ResourceEvent.delegate (ResourceHandler.fileServer "/b")] :=
  ⟨rfl, by decide, rfl, List.Perm.swap _ _ _, by decide⟩

/-- C11 (amended): after any sequence of `RegisterDirectory` calls on a new resource
router, the directory the `range` loop visits first is one of the registered directories
paired with its own file server, and if the requested path does not exist under that
directory `ServeHTTP` performs the one stat, answers 404 with the error text and
delegates to no file-serving handler, whatever the other registered directories hold. -/
theorem C11_first_visited_directory {E : Type} (F : FS E) (dirs : List String)
    (order rest : List (String × ResourceHandler)) (root : String) (handler : ResourceHandler)
    (path : String) (err : E)
    (ho : (NewResourceRouter.registerAll dirs).RangeOrder order)
    (hhead : order = (root, handler) :: rest)
    (hstat : F.stat (F.join root path) = some err) (hmiss : F.isNotExist err = true) :
    root ∈ dirs ∧ handler = ResourceHandler.fileServer root ∧
    (NewResourceRouter.registerAll dirs).ServeHTTP F order path
      = [ResourceEvent.stat (F.join root path), ResourceEvent.error (F.errorText err) 404] ∧
    ∀ h, ResourceEvent.delegate h ∉ (NewResourceRouter.registerAll dirs).ServeHTTP F order path := by
  have hmem : (root, handler) ∈ (NewResourceRouter.registerAll dirs).resources.entries := by
    apply ho.subset
    rw [hhead]
    exact List.mem_cons_self _ _
  have hreg := mem_registerAll NewResourceRouter dirs (root, handler) hmem
  have hev : (NewResourceRouter.registerAll dirs).ServeHTTP F order path
      = [ResourceEvent.stat (F.join root path), ResourceEvent.error (F.errorText err) 404] := by
    simp only [ResourceRouter.ServeHTTP, hhead, resourceLoop, hstat, hmiss, if_true]
  rcases hreg with hreg | hreg
  · simp [NewResourceRouter, GoMap.empty] at hreg
  · refine ⟨hreg.1, hreg.2, hev, ?_⟩
    intro h hd
    rw [hev] at hd
    simp at hd

/-- C11 (amended), instance: after `RegisterDirectory("/a")` then `RegisterDirectory("/b")`,
with `/logo.png` present under `/a` only, the iteration order that visits `/b` first
gives a 404 and no delegation. -/
theorem C11_first_visited_directory_witness :
    (NewResourceRouter.registerAll ["/a", "/b"]).ServeHTTP (refFS ["/a/logo.png"] [])
      [("/b", ResourceHandler.fileServer "/b"), ("/a", ResourceHandler.fileServer "/a")]
      "/logo.png"
      = [ResourceEvent.stat "/b/logo.png",
          ResourceEvent.error "stat /b/logo.png: no such file or directory" 404] :=
  (C11_first_visited_directory (refFS ["/a/logo.png"] []) ["/a", "/b"]
    [("/b", ResourceHandler.fileServer "/b"), ("/a", ResourceHandler.fileServer "/a")]
    [("/a", ResourceHandler.fileServer "/a")] "/b" (ResourceHandler.fileServer "/b")
    "/logo.png" (RefFsError.notExist "/b/logo.png") (List.Perm.swap _ _ _) rfl (by decide)
    rfl).2.2.1

/-- C12 (as stated, refuted): with `/a` registered and a permission error on
`/a/secret.txt`, the existence check returns a non-nil error that is not a missing-file
error, and `ServeHTTP` answers no 404: it delegates to the file server of `/a`. -/
theorem C12_counterexample :
    (refFS [] ["/a/secret.txt"]).stat ((refFS [] ["/a/secret.txt"]).join "/a" "/secret.txt")
      = some (RefFsError.permission "/a/secret.txt") ∧
    (NewResourceRouter.RegisterDirectory "/a").RangeOrder
      [("/a", ResourceHandler.fileServer "/a")] ∧
    (NewResourceRouter.RegisterDirectory "/a").ServeHTTP (refFS [] ["/a/secret.txt"])
      [("/a", ResourceHandler.fileServer "/a")] "/secret.txt"
      = [ResourceEvent.stat "/a/secret.txt",
          ResourceEvent.delegate (ResourceHandler.fileServer "/a")] :=
  ⟨by decide, List.Perm.refl _, by decide⟩

/-- C12 (amended): for every registered directory visited first and every request path,
when the existence check returns an error, `ServeHTTP` answers 404 with the error text and
does not delegate if the error is a missing-file error (`os.IsNotExist`), and delegates to
the directory's file-serving handler, answering no 404 itself, if it is any other
error. -/
theorem C12_stat_error {E : Type} (F : FS E) (router : ResourceRouter)
    (order rest : List (String × ResourceHandler)) (root : String) (handler : ResourceHandler)
    (path : String) (err : E)
    (ho : router.RangeOrder order) (hhead : order = (root, handler) :: rest)
    (hstat : F.stat (F.join root path) = some err) :
    router.resources.get? root = some handler ∧
    (F.isNotExist err = true →
      router.ServeHTTP F order path
        = [ResourceEvent.stat (F.join root path),
            ResourceEvent.error (F.errorText err) 404]) ∧
    (F.isNotExist err = false →
      router.ServeHTTP F order path
        = [ResourceEvent.stat (F.join root path), ResourceEvent.delegate handler]) := by
  refine ⟨?_, ?_, ?_⟩
  · apply GoMap.get?_of_mem
    apply ho.subset
    rw [hhead]
    exact List.mem_cons_self _ _
  · intro hmiss
    simp only [ResourceRouter.ServeHTTP, hhead, resourceLoop, hstat, hmiss, if_true]
  · intro hother
    simp [ResourceRouter.ServeHTTP, hhead, resourceLoop, hstat, hother]

/-- C12 (amended), instance: with `/a` registered, a missing `/a/missing.png` gives a 404
carrying the error text, and a permission error on `/a/secret.txt` gives a delegation. -/
theorem C12_stat_error_witness :
    (NewResourceRouter.RegisterDirectory "/a").ServeHTTP (refFS [] ["/a/secret.txt"])
      [("/a", ResourceHandler.fileServer "/a")] "/missing.png"
      = [ResourceEvent.stat "/a/missing.png",
          ResourceEvent.error "stat /a/missing.png: no such file or directory" 404] ∧
    (NewResourceRouter.RegisterDirectory "/a").ServeHTTP (refFS [] ["/a/secret.txt"])
      [("/a", ResourceHandler.fileServer "/a")] "/secret.txt"
      = [ResourceEvent.stat "/a/secret.txt",
          ResourceEvent.delegate (ResourceHandler.fileServer "/a")] :=
  ⟨(C12_stat_error (refFS [] ["/a/secret.txt"]) (NewResourceRouter.RegisterDirectory "/a")
      [("/a", ResourceHandler.fileServer "/a")] [] "/a" (ResourceHandler.fileServer "/a")
      "/missing.png" (RefFsError.notExist "/a/missing.png") (List.Perm.refl _) rfl
      (by decide)).2.1 rfl,
    (C12_stat_error (refFS [] ["/a/secret.txt"]) (NewResourceRouter.RegisterDirectory "/a")
      [("/a", ResourceHandler.fileServer "/a")] [] "/a" (ResourceHandler.fileServer "/a")
      "/secret.txt" (RefFsError.permission "/a/secret.txt") (List.Perm.refl _) rfl
      (by decide)).2.2 rfl⟩

/-- C13: for every resource router, iteration order of its map and request path: with no
registered directory `ServeHTTP` answers NotFound and performs no stat; with one or more
it visits the first directory of the iteration order only, performing exactly one stat,
on that directory joined with the path, followed by exactly one answer: a 404, or one
delegation to the file-serving handler registered for that same directory. -/
theorem C13_single_directory {E : Type} (F : FS E) (router : ResourceRouter)
    (order : List (String × ResourceHandler)) (path : String)
    (ho : router.RangeOrder order) :
    (router.resources.len = 0 → router.ServeHTTP F order path = [ResourceEvent.notFound]) ∧
    (0 < router.resources.len →
      ∃ root handler rest, order = (root, handler) :: rest ∧
        router.resources.get? root = some handler ∧
        ∃ answer, router.ServeHTTP F order path
            = [ResourceEvent.stat (F.join root path), answer] ∧
          ((∃ msg, answer = ResourceEvent.error msg 404) ∨
            answer = ResourceEvent.delegate handler)) := by
  have hlen : order.length = router.resources.len := ho.length_eq
  constructor
  · intro h0
    rw [h0] at hlen
    rw [ResourceRouter.ServeHTTP, List.length_eq_zero.mp hlen]
    rfl
  · intro hpos
    rw [← hlen] at hpos
    cases horder : order with
    | nil =>
      rw [horder] at hpos
      exact absurd hpos (by simp)
    | cons e rest =>
      obtain ⟨root, handler⟩ := e
      have hget : router.resources.get? root = some handler := by
        apply GoMap.get?_of_mem
        apply ho.subset
        rw [horder]
        exact List.mem_cons_self _ _
      refine ⟨root, handler, rest, rfl, hget, ?_⟩
      simp only [ResourceRouter.ServeHTTP, resourceLoop]
      cases hstat : F.stat (F.join root path) with
      | none => exact ⟨_, rfl, Or.inr rfl⟩
      | some err =>
        by_cases hmiss : F.isNotExist err = true
        · simp only [hmiss, if_true]
          exact ⟨_, rfl, Or.inl ⟨_, rfl⟩⟩
        · simp only [hmiss]
          exact ⟨_, rfl, Or.inr rfl⟩

/-- C13, instance: with `/a` and `/b` registered and `/logo.png` present under both, the
order visiting `/b` first is an iteration order of the map, and under it `ServeHTTP`
performs the single stat of `/b/logo.png` followed by the single delegation to the file
server of `/b`, the handler registered for `/b`; `/a` is neither stat-ed nor delegated
to. -/
theorem C13_single_directory_witness :
    resourcesAB.RangeOrder
      [("/b", ResourceHandler.fileServer "/b"), ("/a", ResourceHandler.fileServer "/a")] ∧
    0 < resourcesAB.resources.len ∧
    (∃ root handler rest,
      [("/b", ResourceHandler.fileServer "/b"), ("/a", ResourceHandler.fileServer "/a")]
        = (root, handler) :: rest ∧
      resourcesAB.resources.get? root = some handler ∧
      ∃ answer,
        resourcesAB.ServeHTTP (refFS ["/a/logo.png", "/b/logo.png"] [])
            [("/b", ResourceHandler.fileServer "/b"), ("/a", ResourceHandler.fileServer "/a")]
            "/logo.png"
          = [ResourceEvent.stat
              ((refFS ["/a/logo.png", "/b/logo.png"] []).join root "/logo.png"), answer] ∧
        ((∃ msg, answer = ResourceEvent.error msg 404) ∨
          answer = ResourceEvent.delegate handler)) ∧
    resourcesAB.ServeHTTP (refFS ["/a/logo.png", "/b/logo.png"] [])
      [("/b", ResourceHandler.fileServer "/b"), ("/a", ResourceHandler.fileServer "/a")]
      "/logo.png"
      = [ResourceEvent.stat "/b/logo.png",
          ResourceEvent.delegate (ResourceHandler.fileServer "/b")] :=
  ⟨List.Perm.swap _ _ _, by decide,
    (C13_single_directory (refFS ["/a/logo.png", "/b/logo.png"] []) resourcesAB
      [("/b", ResourceHandler.fileServer "/b"), ("/a", ResourceHandler.fileServer "/a")]
      "/logo.png" (List.Perm.swap _ _ _)).2 (by decide),
    by decide⟩

end ResourceClaims

/-! ## Further claims about the dispatch router -/

section RouterFrameClaims

variable {H Re Err : Type}

theorem keys_Register (L : Lib Re Err) (router : Router H Re) (method route : String)
    (h : H) : (router.Register L method route h).2.Routes.keys = router.Routes.keys := by
  unfold Router.Register
  simp only
  cases hget : router.Routes.get? (L.toLower method) with
  | none => rfl
  | some routes =>
    cases hc : L.compile route with
    | error err => rfl
    | ok re =>
      simp only
      rw [GoMap.keys_set, if_pos (GoMap.mem_keys_of_get? hget)]

theorem keys_call (L : Lib Re Err) (router : Router H Re) (c : Call H) :
    (router.call L c).2.Routes.keys = router.Routes.keys := by
  cases c <;> exact keys_Register L router _ _ _

theorem reachable_call (L : Lib Re Err) (router : Router H Re) (c : Call H)
    (hr : Reachable L router) : Reachable L (router.call L c).2 := by
  cases c <;> exact Reachable.register router _ _ _ hr

theorem reachable_calls (L : Lib Re Err) (router : Router H Re) (cs : List (Call H))
    (hr : Reachable L router) : Reachable L (router.calls L cs) := by
  induction cs generalizing router with
  | nil => exact hr
  | cons c cs ih => exact ih _ (reachable_call L router c hr)

theorem findFirst_filter (L : Lib Re Err) (u p : String) (order : List (String × H))
    (hp : patternMatches L p u = false) :
    findFirst L u order = findFirst L u (order.filter (fun e => e.1 ≠ p)) := by
  induction order with
  | nil => rfl
  | cons e rest ih =>
    unfold findFirst at ih ⊢
    by_cases hk : e.1 = p
    · simp only [List.find?_cons, List.filter_cons, hk, hp, ne_eq, not_true_eq_false,
        decide_False, Bool.false_eq_true, if_false]
      exact ih
    · simp only [List.filter_cons, hk, ne_eq, not_false_eq_true, decide_True, if_true,
        List.find?_cons]
      cases hme : patternMatches L e.1 u with
      | true => rfl
      | false => exact ih

theorem filter_setEntries {V : Type} (k : String) (v : V) (l : List (String × V)) :
    (GoMap.setEntries k v l).filter (fun e => e.1 ≠ k) = l.filter (fun e => e.1 ≠ k) := by
  induction l with
  | nil => simp [GoMap.setEntries]
  | cons e rest ih =>
    obtain ⟨k', v'⟩ := e
    by_cases hk : k' = k
    · simp [GoMap.setEntries, hk]
    · simp only [GoMap.setEntries, hk, if_false, List.filter_cons, ne_eq, not_false_eq_true,
        decide_True, if_true, ih]

/-- C14 (as stated, refuted): `GET` and `get` have the same lower-cased form, the router
holding `GET $ -> A` and `GET \.js$ -> B` is reachable, both enumerations of its `get`
bucket are iteration orders of the `range` loop for either method string, and the
requests `GET /app.js` and `get /app.js`, which differ only in the case of the method,
are routed to `A` and to `B` when their two loops take these two orders. -/
theorem C14_counterexample :
    refLib.toLower "GET" = refLib.toLower "get" ∧
    Reachable refLib routerAB ∧
    routerAB.RangeOrder refLib "GET" [("$", "A"), ("\\.js$", "B")] ∧
    routerAB.RangeOrder refLib "get" [("\\.js$", "B"), ("$", "A")] ∧
    routerAB.ServeHTTP refLib [("$", "A"), ("\\.js$", "B")] "GET" "/app.js"
      = Decision.invoke "A" ∧
    routerAB.ServeHTTP refLib [("\\.js$", "B"), ("$", "A")] "get" "/app.js"
      = Decision.invoke "B" ∧
    routerAB.ServeHTTP refLib [("$", "A"), ("\\.js$", "B")] "GET" "/app.js"
      ≠ routerAB.ServeHTTP refLib [("\\.js$", "B"), ("$", "A")] "get" "/app.js" :=
  ⟨by decide,
    Reachable.register _ _ _ _ (Reachable.register _ _ _ _ Reachable.init),
    rangeOrder_of_entries refLib routerAB "GET" _ [("$", "A"), ("\\.js$", "B")] (by decide)
      (List.Perm.refl _),
    rangeOrder_of_entries refLib routerAB "get" _ [("$", "A"), ("\\.js$", "B")] (by decide)
      (List.Perm.swap _ _ _),
    by decide, by decide, by decide⟩

/-- C14 (amended): for every router state and every two method strings with the same
lower-cased form, `Register` with either string returns the same error and the same
router state, and the `range` loop of `ServeHTTP` has the same possible iteration orders
for either string; and in every router state reachable from `NewRouter` by `Register`
calls, two requests that differ only in the case of the method get the same routing
decision, whatever iteration orders their two loops take, whenever at most one pattern of
the method's bucket matches the path. -/
theorem C14_method_case_insensitive (L : Lib Re Err) (router : Router H Re)
    (m1 m2 route u : String) (h : H) (hlow : L.toLower m1 = L.toLower m2) :
    router.Register L m1 route h = router.Register L m2 route h ∧
    (∀ order : List (String × H),
      router.RangeOrder L m1 order ↔ router.RangeOrder L m2 order) ∧
    (Reachable L router →
      ∀ o1 o2 : List (String × H),
        router.RangeOrder L m1 o1 → router.RangeOrder L m2 o2 →
        (∀ routes, router.Routes.get? (L.toLower m1) = some routes →
          ∀ p ∈ routes.registered.keys, ∀ q ∈ routes.registered.keys,
            patternMatches L p u = true → patternMatches L q u = true → p = q) →
        router.ServeHTTP L o1 m1 u = router.ServeHTTP L o2 m2 u) := by
  refine ⟨?_, ?_, ?_⟩
  · unfold Router.Register
    rw [hlow]
  · intro order
    unfold Router.RangeOrder
    rw [hlow]
  · intro hr o1 o2 h1 h2 huniq
    have hinv := inv_of_reachable L hr
    rw [ServeHTTP_eq_findFirst L router m1 u o1 hinv h1,
      ServeHTTP_eq_findFirst L router m2 u o2 hinv h2, ← hlow]
    cases hget : router.Routes.get? (L.toLower m1) with
    | none => rfl
    | some routes =>
      simp only
      have hp1 := h1 routes hget
      have hp2 := h2 routes (hlow ▸ hget)
      apply findFirst_perm L u o1 o2 (hp1.trans hp2.symm)
      · exact (hp1.map Prod.fst).nodup_iff.mpr routes.registered.nodup
      · intro e1 he1 e2 he2 hm1 hm2
        exact huniq routes hget e1.1 (List.mem_map.mpr ⟨e1, hp1.subset he1, rfl⟩) e2.1
          (List.mem_map.mpr ⟨e2, hp1.subset he2, rfl⟩) hm1 hm2

/-- C14 (amended), instance: `GET` and `GeT` have the lower-cased form `get`; registering
`$ -> A` with either gives the same result; and on the router holding `GET $ -> A` and
`GET \.js$ -> B` the requests `GET /app.css` and `GeT /app.css`, whose path only `$`
matches, are both routed to `A` although their loops take different orders. -/
theorem C14_method_case_insensitive_witness :
    refLib.toLower "GET" = "get" ∧ refLib.toLower "GeT" = "get" ∧
    (NewRouter : Router String Rx).Register refLib "GET" "$" "A"
      = (NewRouter : Router String Rx).Register refLib "GeT" "$" "A" ∧
    routerAB.ServeHTTP refLib [("$", "A"), ("\\.js$", "B")] "GET" "/app.css"
      = routerAB.ServeHTTP refLib [("\\.js$", "B"), ("$", "A")] "GeT" "/app.css" ∧
    routerAB.ServeHTTP refLib [("\\.js$", "B"), ("$", "A")] "GeT" "/app.css"
      = Decision.invoke "A" := by
  refine ⟨by decide, by decide,
    (C14_method_case_insensitive refLib (NewRouter : Router String Rx) "GET" "GeT" "$" "/x"
      "A" (by decide)).1, ?_, by decide⟩
  refine (C14_method_case_insensitive refLib routerAB "GET" "GeT" "$" "/app.css" "A"
    (by decide)).2.2
    (Reachable.register _ _ _ _ (Reachable.register _ _ _ _ Reachable.init)) _ _
    (rangeOrder_of_entries refLib routerAB "GET" _ [("$", "A"), ("\\.js$", "B")] (by decide)
      (List.Perm.refl _))
    (rangeOrder_of_entries refLib routerAB "GeT" _ [("$", "A"), ("\\.js$", "B")] (by decide)
      (List.Perm.swap _ _ _)) ?_
  intro routes hget p hp q hq hmp hmq
  have hk : (routerAB.Routes.get? (refLib.toLower "GET")).map (fun b => b.registered.keys)
      = some ["$", "\\.js$"] := by decide
  rw [hget] at hk
  simp only [Option.map_some', Option.some.injEq] at hk
  rw [hk] at hp hq
  have hjs : patternMatches refLib "\\.js$" "/app.css" = false := by decide
  simp only [List.mem_cons, List.mem_singleton, List.mem_nil_iff, or_false] at hp hq
  rcases hp with hp | hp <;> rcases hq with hq | hq <;> subst hp <;> subst hq
  · rfl
  · rw [hjs] at hmq
    exact absurd hmq (by decide)
  · rw [hjs] at hmp
    exact absurd hmp (by decide)
  · rfl

/-- C15: in every router state reached from `NewRouter()` by any sequence of `Register`,
`GET`, `POST`, `PUT` and `DELETE` calls, successful or failing, the keys of `Routes` are
exactly `get`, `post`, `put`, `delete`; and no such call, on any router, adds or removes a
bucket. -/
theorem C15_buckets_fixed (L : Lib Re Err) :
    (∀ cs : List (Call H),
      ((NewRouter : Router H Re).calls L cs).Routes.keys = ["get", "post", "put", "delete"]) ∧
    (∀ (router : Router H Re) (c : Call H),
      (router.call L c).2.Routes.keys = router.Routes.keys) := by
  refine ⟨?_, keys_call L⟩
  intro cs
  have hgen : ∀ (router : Router H Re),
      (router.calls L cs).Routes.keys = router.Routes.keys := by
    induction cs with
    | nil => intro router; rfl
    | cons c cs ih =>
      intro router
      rw [Router.calls, ih, keys_call]
  rw [hgen]
  rfl

/-- C16: in every router state reached from `NewRouter()` by any sequence of registration
calls, every bucket's `registered` and `patterns` maps have the same keys, `patterns[p]` is
the successful compilation of `p`, every key of `registered` has its compiled expression
in `patterns`, and the loop of `ServeHTTP` over any iteration order of the bucket never
meets a nil pattern. -/
theorem C16_patterns_agree (L : Lib Re Err) (cs : List (Call H)) (m : String)
    (routes : handlers H Re)
    (hget : ((NewRouter : Router H Re).calls L cs).Routes.get? m = some routes) :
    routes.registered.keys = routes.patterns.keys ∧
    (∀ p re, routes.patterns.get? p = some re → L.compile p = .ok re) ∧
    (∀ p h, routes.registered.get? p = some h →
      ∃ re, routes.patterns.get? p = some re ∧ L.compile p = .ok re) ∧
    (∀ (order : List (String × H)) (u : String), order.Perm routes.registered.entries →
      serveLoop L routes.patterns u order ≠ .nilPattern) := by
  have hinv := inv_of_reachable L (reachable_calls L NewRouter cs Reachable.init)
  obtain ⟨hk, hp⟩ := hinv.2 m routes hget
  refine ⟨hk, hp, ?_, ?_⟩
  · intro p h hph
    exact pattern_of_registered L hinv hget (GoMap.mem_of_get? hph)
  · intro order u hperm
    rw [serveLoop_eq_findFirst L routes.patterns u order
      (fun e he => pattern_of_registered L hinv hget (hperm.subset he))]
    unfold findFirst
    cases order.find? (fun e => patternMatches L e.1 u) <;> simp

/-- C16, instance: after `GET("$", A)` on a new router the `get` bucket holds `$` in both
maps, with the compiled expression of `$`. -/
theorem C16_patterns_agree_witness :
    ((NewRouter : Router String Rx).calls refLib [Call.get "$" "A"]).Routes.get? "get"
      = some { registered := GoMap.empty.set "$" "A", patterns := GoMap.empty.set "$" Rx.eol } ∧
    (GoMap.empty.set "$" "A" : GoMap String).keys = (GoMap.empty.set "$" Rx.eol).keys ∧
    (∀ p re, (GoMap.empty.set "$" Rx.eol).get? p = some re → refLib.compile p = .ok re) :=
  have h := C16_patterns_agree refLib [Call.get "$" "A"] "get"
    { registered := GoMap.empty.set "$" "A", patterns := GoMap.empty.set "$" Rx.eol } rfl
  ⟨rfl, h.1, h.2.1⟩

/-- C17 (as stated, refuted): on the router holding `GET $ -> A` and `GET \.js$ -> B`,
`Register("GET", "/zzz$", C)` returns nil and `/zzz$` does not match `/app.js`; yet
`GET /app.js` is routed to `A` before the call, under the iteration order visiting `$`
first, and to `B` after the call, under the iteration order visiting `\.js$` first. -/
theorem C17_counterexample :
    Reachable refLib routerAB ∧
    (routerAB.Register refLib "GET" "/zzz$" "C").1 = none ∧
    patternMatches refLib "/zzz$" "/app.js" = false ∧
    routerAB.RangeOrder refLib "GET" [("$", "A"), ("\\.js$", "B")] ∧
    (routerAB.Register refLib "GET" "/zzz$" "C").2.RangeOrder refLib "GET"
      [("\\.js$", "B"), ("$", "A"), ("/zzz$", "C")] ∧
    routerAB.ServeHTTP refLib [("$", "A"), ("\\.js$", "B")] "GET" "/app.js"
      = Decision.invoke "A" ∧
    (routerAB.Register refLib "GET" "/zzz$" "C").2.ServeHTTP refLib
      [("\\.js$", "B"), ("$", "A"), ("/zzz$", "C")] "GET" "/app.js" = Decision.invoke "B" :=
  ⟨Reachable.register _ _ _ _ (Reachable.register _ _ _ _ Reachable.init),
    by decide, by decide,
    rangeOrder_of_entries refLib routerAB "GET" _ [("$", "A"), ("\\.js$", "B")] (by decide)
      (List.Perm.refl _),
    rangeOrder_of_entries refLib _ "GET" _ [("$", "A"), ("\\.js$", "B"), ("/zzz$", "C")]
      (by decide) (List.Perm.swap _ _ _),
    by decide, by decide⟩

/-- C17 (amended): in every router state reachable from `NewRouter` by `Register` calls, a
`Register(m, p, h)` that returns nil leaves every bucket other than that of lower-cased
`m` unchanged; in that bucket it stores `h` and the compiled `p` under `p` and leaves
handler and compiled expression of every other pattern string unchanged; and every
request that is for another method or whose path `p` does not match, and for which at
most one pattern of its method's bucket matches the path, is routed after the call as
before it, whatever iteration orders the loops before and after the call take. -/
theorem C17_register_frame (L : Lib Re Err) (router : Router H Re) (m p : String) (h : H)
    (hr : Reachable L router) (hok : (router.Register L m p h).1 = none) :
    (∀ m2, m2 ≠ L.toLower m →
      (router.Register L m p h).2.Routes.get? m2 = router.Routes.get? m2) ∧
    (∃ b b2 re, router.Routes.get? (L.toLower m) = some b ∧
      (router.Register L m p h).2.Routes.get? (L.toLower m) = some b2 ∧
      L.compile p = .ok re ∧
      b2.registered.get? p = some h ∧ b2.patterns.get? p = some re ∧
      ∀ q, q ≠ p → b2.registered.get? q = b.registered.get? q ∧
        b2.patterns.get? q = b.patterns.get? q) ∧
    (∀ (method u : String) (o o2 : List (String × H)),
      (L.toLower method ≠ L.toLower m ∨ patternMatches L p u = false) →
      router.RangeOrder L method o →
      (router.Register L m p h).2.RangeOrder L method o2 →
      (∀ routes, router.Routes.get? (L.toLower method) = some routes →
        ∀ q1 ∈ routes.registered.keys, ∀ q2 ∈ routes.registered.keys,
          patternMatches L q1 u = true → patternMatches L q2 u = true → q1 = q2) →
      (router.Register L m p h).2.ServeHTTP L o2 method u
        = router.ServeHTTP L o method u) := by
  have hr2 : Reachable L (router.Register L m p h).2 := Reachable.register router m p h hr
  have hinv := inv_of_reachable L hr
  have hinv2 := inv_of_reachable L hr2
  cases hget : router.Routes.get? (L.toLower m) with
  | none =>
    unfold Router.Register at hok
    simp [hget, ErrCouldNotRegisterUnsupportedMethod] at hok
  | some b =>
    cases hc : L.compile p with
    | error err =>
      unfold Router.Register at hok
      simp [hget, hc] at hok
    | ok re =>
      have hreg := Register_ok L router m p h b re hget hc
      have hother : ∀ m2, m2 ≠ L.toLower m →
          (router.Register L m p h).2.Routes.get? m2 = router.Routes.get? m2 := by
        intro m2 hm2
        rw [hreg]
        exact GoMap.get?_set_ne _ _ _ _ hm2
      have hself : (router.Register L m p h).2.Routes.get? (L.toLower m)
          = some { registered := b.registered.set p h, patterns := b.patterns.set p re } := by
        rw [hreg]
        exact GoMap.get?_set_self _ _ _
      refine ⟨hother, ?_, ?_⟩
      · refine ⟨b, _, re, rfl, hself, rfl, GoMap.get?_set_self _ _ _,
          GoMap.get?_set_self _ _ _, ?_⟩
        intro q hq
        exact ⟨GoMap.get?_set_ne _ _ _ _ hq, GoMap.get?_set_ne _ _ _ _ hq⟩
      · intro method u o o2 hcond ho ho2 huniq
        rw [ServeHTTP_eq_findFirst L _ method u o2 hinv2 ho2,
          ServeHTTP_eq_findFirst L router method u o hinv ho]
        by_cases hm : L.toLower method = L.toLower m
        · have hp : patternMatches L p u = false := by
            rcases hcond with hne | hp
            · exact absurd hm hne
            · exact hp
          have hgetm : router.Routes.get? (L.toLower method) = some b := by
            rw [hm]
            exact hget
          have hpo : o.Perm b.registered.entries := ho b hgetm
          have hpo2 : o2.Perm (b.registered.set p h).entries :=
            ho2 _ (by rw [hm]; exact hself)
          rw [hm, hself, hget]
          simp only
          rw [findFirst_filter L u p o hp, findFirst_filter L u p o2 hp]
          have hpf : (o2.filter (fun e => e.1 ≠ p)).Perm (o.filter (fun e => e.1 ≠ p)) := by
            have h1 := hpo2.filter (fun e => e.1 ≠ p)
            have h2 := hpo.filter (fun e => e.1 ≠ p)
            have h3 : (b.registered.set p h).entries.filter (fun e => e.1 ≠ p)
                = b.registered.entries.filter (fun e => e.1 ≠ p) :=
              filter_setEntries p h b.registered.entries
            rw [h3] at h1
            exact h1.trans h2.symm
          apply findFirst_perm L u _ _ hpf
          · have hn2 : (o2.map Prod.fst).Nodup :=
              (hpo2.map Prod.fst).nodup_iff.mpr (b.registered.set p h).nodup
            exact hn2.sublist ((List.filter_sublist o2).map Prod.fst)
          · intro e1 he1 e2 he2 hm1 hm2
            have hmem : ∀ e, e ∈ o2.filter (fun e => e.1 ≠ p) → e.1 ∈ b.registered.keys := by
              intro e he
              have he3 : e ∈ o := (List.mem_filter.mp (hpf.subset he)).1
              exact List.mem_map.mpr ⟨e, hpo.subset he3, rfl⟩
            exact huniq b hgetm e1.1 (hmem e1 he1) e2.1 (hmem e2 he2) hm1 hm2
        · have hsame := hother (L.toLower method) hm
          rw [hsame]
          cases hg : router.Routes.get? (L.toLower method) with
          | none => rfl
          | some b3 =>
            simp only
            have hpo : o.Perm b3.registered.entries := ho b3 hg
            have hpo2 : o2.Perm b3.registered.entries := ho2 b3 (by rw [hsame]; exact hg)
            apply findFirst_perm L u o2 o (hpo2.trans hpo.symm)
            · exact (hpo2.map Prod.fst).nodup_iff.mpr b3.registered.nodup
            · intro e1 he1 e2 he2 hm1 hm2
              exact huniq b3 hg e1.1 (List.mem_map.mpr ⟨e1, hpo2.subset he1, rfl⟩) e2.1
                (List.mem_map.mpr ⟨e2, hpo2.subset he2, rfl⟩) hm1 hm2

/-- C17 (amended), instance: registering `\.js$ -> B` on the router holding `GET $ -> A`
leaves the `post` bucket as it was, and `GET /app.css`, which `\.js$` does not match and
only `$` matches, is routed to `A` after the call, under the order visiting the new entry
first, as before the call. -/
theorem C17_register_frame_witness :
    patternMatches refLib "\\.js$" "/app.css" = false ∧
    (routerA.Register refLib "GET" "\\.js$" "B").2.Routes.get? "post"
      = routerA.Routes.get? "post" ∧
    (routerA.Register refLib "GET" "\\.js$" "B").2.ServeHTTP refLib
      [("\\.js$", "B"), ("$", "A")] "GET" "/app.css"
      = routerA.ServeHTTP refLib [("$", "A")] "GET" "/app.css" ∧
    routerA.ServeHTTP refLib [("$", "A")] "GET" "/app.css" = Decision.invoke "A" := by
  have h := C17_register_frame refLib routerA "GET" "\\.js$" "B"
    (Reachable.register _ _ _ _ Reachable.init) (by decide)
  refine ⟨by decide, h.1 "post" (by decide), ?_, by decide⟩
  refine h.2.2 "GET" "/app.css" [("$", "A")] [("\\.js$", "B"), ("$", "A")]
    (Or.inr (by decide))
    (rangeOrder_of_entries refLib routerA "GET" _ [("$", "A")] (by decide)
      (List.Perm.refl _))
    (rangeOrder_of_entries refLib _ "GET" _ [("$", "A"), ("\\.js$", "B")] (by decide)
      (List.Perm.swap _ _ _)) ?_
  intro routes hget q1 hq1 q2 hq2 _ _
  have hk : (routerA.Routes.get? (refLib.toLower "GET")).map (fun b => b.registered.keys)
      = some ["$"] := by decide
  rw [hget] at hk
  simp only [Option.map_some', Option.some.injEq] at hk
  rw [hk] at hq1 hq2
  simp only [List.mem_singleton] at hq1 hq2
  rw [hq1, hq2]

end RouterFrameClaims

end Webpack
